import Mathlib

/-!
# CHIP-8 interpreter (`src/chip8.c`): shallow embedding and verified properties

The C program keeps the whole machine in global variables.  Here the machine is
one record `Machine` that every handler receives and returns.  Machine integers
are natural numbers; every place where the C code truncates (a store into a
`uint8_t` or `uint16_t`, an increment that can wrap) carries an explicit `%`.

Arrays are total functions on indices, and every access that the C code can
perform outside the declared extent of an array is guarded here and yields
`Trap.out_of_bounds` (the C standard leaves such an access undefined).
`assert(false)` aborts the process and is rendered as `Trap.assert_failed`.

The keyboard and `rand()` are outside the program: a handler that consults them
receives an `Env`.  The key-wait loop of `op_ld_vx_k` has no bound in the source;
here it runs on `fuel` keyboard scans and yields `Trap.still_polling` when they
are used up.  Calls to `printf` are omitted.
-/

namespace Chip8

/-! ## Constants and operand extraction (lines 14-32 of the source) -/

abbrev RAM_SIZE : Nat := 0x1000
abbrev FONT_BASE_ADDR : Nat := 0x050
abbrev PROGRAM_BASE_ADDR : Nat := 0x200
abbrev PROGRAM_REGION_END : Nat := 0xFFF
abbrev PROGRAM_REGION_SIZE : Nat := PROGRAM_REGION_END - PROGRAM_BASE_ADDR + 1
abbrev WIDTH : Nat := 64
abbrev HEIGHT : Nat := 32
abbrev CPU_STEPS_PER_FRAME : Nat := 10
abbrev FONT_BYTES : Nat := 16 * 5

/-- The macro `NNN(op)`: `(uint16_t)(op) & 0x0FFF`. -/
def NNN (op : Nat) : Nat := (op % 65536) &&& 0x0FFF

/-- The macro `N(op)`: `(uint8_t)(op) & 0x000F`. -/
def N (op : Nat) : Nat := (op % 256) &&& 0x000F

/-- The macro `X(op)`: `(uint8_t)((op) >> 8) & 0x0F`. -/
def X (op : Nat) : Nat := ((op >>> 8) % 256) &&& 0x0F

/-- The macro `Y(op)`: `(uint8_t)((op) >> 4) & 0x0F`. -/
def Y (op : Nat) : Nat := ((op >>> 4) % 256) &&& 0x0F

/-- The macro `KK(op)`: `(uint8_t)(op) & 0x00FF`. -/
def KK (op : Nat) : Nat := (op % 256) &&& 0x00FF

/-- The table `font_sprites`. -/
def font_sprites : List Nat :=
  [0xF0, 0x90, 0x90, 0x90, 0xF0,
   0x20, 0x60, 0x20, 0x20, 0x70,
   0xF0, 0x10, 0xF0, 0x80, 0xF0,
   0xF0, 0x10, 0xF0, 0x10, 0xF0,
   0x90, 0x90, 0xF0, 0x10, 0x10,
   0xF0, 0x80, 0xF0, 0x10, 0xF0,
   0xF0, 0x80, 0xF0, 0x90, 0xF0,
   0xF0, 0x10, 0x20, 0x40, 0x40,
   0xF0, 0x90, 0xF0, 0x90, 0xF0,
   0xF0, 0x90, 0xF0, 0x10, 0xF0,
   0xF0, 0x90, 0xF0, 0x90, 0x90,
   0xE0, 0x90, 0xE0, 0x90, 0xE0,
   0xF0, 0x80, 0x80, 0x80, 0xF0,
   0xE0, 0x90, 0x90, 0x90, 0xE0,
   0xF0, 0x80, 0xF0, 0x80, 0xF0,
   0xF0, 0x80, 0xF0, 0x80, 0x80]

/-! ## Ways in which a handler can fail to return -/

/-- Abnormal outcomes of a handler. -/
inductive Trap where
  /-- An `assert(false)` was reached: the process aborts. -/
  | assert_failed
  /-- An array or the RAM block was accessed outside its extent. -/
  | out_of_bounds
  /-- The key-wait loop of `op_ld_vx_k` was still polling when the fuel ran out. -/
  | still_polling
  deriving DecidableEq

/-! ## The outside world: keyboard and random numbers -/

/-- What one instruction observes of the outside world.  `IsKeyDown t k` is the
answer of raylib's `IsKeyDown(k)` during the `t`-th keyboard scan made by the
instruction, and `rand` is the value returned by the C library's `rand()`. -/
structure Env where
  IsKeyDown : Nat → Nat → Bool
  rand : Nat

/-- The struct `KeyMapping`. -/
structure KeyMapping where
  qwerty_key : Nat
  chip8_key : Nat

/-- The table `valid_keys`.  The raylib key codes `KEY_ONE`, `KEY_Q`, ... are the
ASCII codes of the characters. -/
def valid_keys : List KeyMapping :=
  [⟨49, 0x1⟩, ⟨50, 0x2⟩, ⟨51, 0x3⟩, ⟨52, 0xC⟩,
   ⟨81, 0x4⟩, ⟨87, 0x5⟩, ⟨69, 0x6⟩, ⟨82, 0xD⟩,
   ⟨65, 0x7⟩, ⟨83, 0x8⟩, ⟨68, 0x9⟩, ⟨70, 0xE⟩,
   ⟨90, 0xA⟩, ⟨88, 0x0⟩, ⟨67, 0xB⟩, ⟨86, 0xF⟩]

/-- The function `get_key_pressed`: the first table entry whose key is down, or `0xFF`. -/
def get_key_pressed (down : Nat → Bool) : Nat :=
  match valid_keys.find? (fun key => down key.qwerty_key) with
  | some key => key.chip8_key
  | none => 0xFF

/-- The function `is_key_pressed`: looks the logical key up in the table; a value
that is no logical key reaches `assert(false)`. -/
def is_key_pressed (down : Nat → Bool) (chip8_key : Nat) : Except Trap Bool :=
  match valid_keys.find? (fun key => chip8_key = key.chip8_key) with
  | some key => .ok (down key.qwerty_key)
  | none => .error .assert_failed

/-! ## Machine state (the globals at lines 102-115) -/

/-- The global variables of the interpreter. -/
structure Machine where
  /-- The registers `uint8_t V[16]`. -/
  V : Nat → Nat
  /-- The index register `uint16_t I`. -/
  I : Nat
  /-- The delay timer `uint16_t DT`. -/
  DT : Nat
  /-- The sound timer `uint16_t ST`. -/
  ST : Nat
  /-- The array `uint16_t stack[16]`. -/
  stack : Nat → Nat
  /-- The stack pointer `uint16_t stack_ptr`. -/
  stack_ptr : Nat
  /-- The program counter `uint16_t PC`. -/
  PC : Nat
  /-- The block `RAM`, `RAM_SIZE` bytes from `calloc`. -/
  RAM : Nat → Nat
  /-- The array `uint8_t framebuffer[32][64]`, indexed row first. -/
  framebuffer : Nat → Nat → Nat
  /-- The flag `screen_needs_update`. -/
  screen_needs_update : Bool

/-- Array update: the array `f` with cell `i` replaced by `v`. -/
def upd (f : Nat → Nat) (i v : Nat) : Nat → Nat :=
  fun j => if j = i then v else f j

/-- The assignment `V[i] = v`. -/
def Machine.setV (s : Machine) (i v : Nat) : Machine :=
  { s with V := upd s.V i v }

/-- The assignment `framebuffer[py][px] = v`. -/
def Machine.setFB (s : Machine) (py px v : Nat) : Machine :=
  { s with framebuffer := fun r c => if r = py ∧ c = px then v else s.framebuffer r c }

/-- The read `RAM[a]`. -/
def Machine.readRAM (s : Machine) (a : Nat) : Except Trap Nat :=
  if a < RAM_SIZE then .ok (s.RAM a) else .error .out_of_bounds

/-- The assignment `RAM[a] = v`. -/
def Machine.writeRAM (s : Machine) (a v : Nat) : Except Trap Machine :=
  if a < RAM_SIZE then .ok { s with RAM := upd s.RAM a v } else .error .out_of_bounds

/-- The state at the start of `main`'s loop before a program is copied in: all
globals zero, the glyph table at `FONT_BASE_ADDR`, and `PC` at the program base. -/
def Machine.init : Machine where
  V := fun _ => 0
  I := 0
  DT := 0
  ST := 0
  stack := fun _ => 0
  stack_ptr := 0
  PC := PROGRAM_BASE_ADDR
  RAM := fun a =>
    if FONT_BASE_ADDR ≤ a ∧ a < FONT_BASE_ADDR + FONT_BYTES
    then font_sprites.getD (a - FONT_BASE_ADDR) 0 else 0
  framebuffer := fun _ _ => 0
  screen_needs_update := false

/-! ## Instruction handlers (lines 120-569) -/

/-- Handler `op_sys` (0nnn): prints and does nothing else. -/
def op_sys (s : Machine) (_opcode : Nat) : Machine := s

/-- Handler `op_cls` (00E0): calls the renderer's `ClearBackground`; no global of
the interpreter is assigned. -/
def op_cls (s : Machine) (_opcode : Nat) : Machine := s

/-- Handler `op_ret` (00EE): `PC = stack[stack_ptr]; stack_ptr--;`. -/
def op_ret (s : Machine) (_opcode : Nat) : Except Trap Machine :=
  if s.stack_ptr < 16 then
    .ok { s with PC := s.stack s.stack_ptr, stack_ptr := (s.stack_ptr + 65535) % 65536 }
  else .error .out_of_bounds

/-- Handler `op_jp_addr` (1nnn): `PC = NNN(opcode);`. -/
def op_jp_addr (s : Machine) (opcode : Nat) : Machine :=
  { s with PC := NNN opcode }

/-- Handler `op_call` (2nnn): `stack_ptr++; stack[stack_ptr] = PC; PC = NNN(opcode);`. -/
def op_call (s : Machine) (opcode : Nat) : Except Trap Machine :=
  let sp := (s.stack_ptr + 1) % 65536
  if sp < 16 then
    .ok { s with stack_ptr := sp, stack := upd s.stack sp s.PC, PC := NNN opcode }
  else .error .out_of_bounds

/-- Handler `op_se_vx_byte` (3xkk). -/
def op_se_vx_byte (s : Machine) (opcode : Nat) : Machine :=
  let x := X opcode
  let kk := KK opcode
  if s.V x = kk then { s with PC := (s.PC + 2) % 65536 } else s

/-- Handler `op_sne_vx_byte` (4xkk). -/
def op_sne_vx_byte (s : Machine) (opcode : Nat) : Machine :=
  let x := X opcode
  let kk := KK opcode
  if s.V x ≠ kk then { s with PC := (s.PC + 2) % 65536 } else s

/-- Handler `op_se_vx_vy` (5xy0). -/
def op_se_vx_vy (s : Machine) (opcode : Nat) : Machine :=
  let x := X opcode
  let y := Y opcode
  if s.V x = s.V y then { s with PC := (s.PC + 2) % 65536 } else s

/-- Handler `op_ld_vx_byte` (6xkk). -/
def op_ld_vx_byte (s : Machine) (opcode : Nat) : Machine :=
  s.setV (X opcode) (KK opcode)

/-- Handler `op_add_vx_byte` (7xkk): `uint8_t tmp = V[x] + kk; V[x] = tmp;`. -/
def op_add_vx_byte (s : Machine) (opcode : Nat) : Machine :=
  let x := X opcode
  let kk := KK opcode
  let tmp := (s.V x + kk) % 256
  s.setV x tmp

/-- Handler `op_ld_vx_vy` (8xy0). -/
def op_ld_vx_vy (s : Machine) (opcode : Nat) : Machine :=
  s.setV (X opcode) (s.V (Y opcode))

/-- Handler `op_or` (8xy1). -/
def op_or (s : Machine) (opcode : Nat) : Machine :=
  s.setV (X opcode) (s.V (X opcode) ||| s.V (Y opcode))

/-- Handler `op_and` (8xy2). -/
def op_and (s : Machine) (opcode : Nat) : Machine :=
  s.setV (X opcode) (s.V (X opcode) &&& s.V (Y opcode))

/-- Handler `op_xor` (8xy3). -/
def op_xor (s : Machine) (opcode : Nat) : Machine :=
  s.setV (X opcode) (s.V (X opcode) ^^^ s.V (Y opcode))

/-- Handler `op_add_vx_vy` (8xy4):
`uint16_t tmp = V[x] + V[y]; VF = (tmp > 255); V[x] = (uint8_t)(tmp & 0xFF);`. -/
def op_add_vx_vy (s : Machine) (opcode : Nat) : Machine :=
  let x := X opcode
  let y := Y opcode
  let tmp := (s.V x + s.V y) % 65536
  let s1 := s.setV 0xF (if tmp > 255 then 1 else 0)
  s1.setV x ((tmp &&& 0xFF) % 256)

/-- Handler `op_sub` (8xy5):
`VF = (V[x] >= V[y]); uint16_t tmp = V[x] - V[y]; V[x] = (uint8_t)tmp;`.
The subtraction reads the registers after `VF` has been assigned. -/
def op_sub (s : Machine) (opcode : Nat) : Machine :=
  let x := X opcode
  let y := Y opcode
  let s1 := s.setV 0xF (if s.V x ≥ s.V y then 1 else 0)
  let tmp := (s1.V x + 65536 - s1.V y) % 65536
  s1.setV x (tmp % 256)

/-- Handler `op_shr` (8xy6): `VF = V[x] & 1; V[x] = V[x] >> 1;`. -/
def op_shr (s : Machine) (opcode : Nat) : Machine :=
  let x := X opcode
  let s1 := s.setV 0xF (s.V x &&& 1)
  s1.setV x (s1.V x >>> 1)

/-- Handler `op_subn` (8xy7):
`VF = V[y] >= V[x]; uint16_t tmp = V[y] - V[x]; V[x] = (uint8_t)(tmp);`. -/
def op_subn (s : Machine) (opcode : Nat) : Machine :=
  let x := X opcode
  let y := Y opcode
  let s1 := s.setV 0xF (if s.V y ≥ s.V x then 1 else 0)
  let tmp := (s1.V y + 65536 - s1.V x) % 65536
  s1.setV x (tmp % 256)

/-- Handler `op_shl` (8xyE): `VF = (V[x] & (0x80)) >> 7; V[x] <<= 1;`. -/
def op_shl (s : Machine) (opcode : Nat) : Machine :=
  let x := X opcode
  let s1 := s.setV 0xF ((s.V x &&& 0x80) >>> 7)
  s1.setV x ((s1.V x <<< 1) % 256)

/-- Handler `op_sne_vx_vy` (9xy0). -/
def op_sne_vx_vy (s : Machine) (opcode : Nat) : Machine :=
  let x := X opcode
  let y := Y opcode
  if s.V x ≠ s.V y then { s with PC := (s.PC + 2) % 65536 } else s

/-- Handler `op_ld_i_addr` (Annn). -/
def op_ld_i_addr (s : Machine) (opcode : Nat) : Machine :=
  { s with I := NNN opcode }

/-- Handler `op_jp_v0_addr` (Bnnn): `PC = NNN(opcode) + V[0];`. -/
def op_jp_v0_addr (s : Machine) (opcode : Nat) : Machine :=
  { s with PC := (NNN opcode + s.V 0) % 65536 }

/-- Handler `op_rnd` (Cxkk): `rnd = (uint8_t)(rand() & 0xFF); V[x] = kk & rnd;`. -/
def op_rnd (env : Env) (s : Machine) (opcode : Nat) : Machine :=
  let x := X opcode
  let kk := KK opcode
  let rnd := (env.rand &&& 0xFF) % 256
  s.setV x (kk &&& rnd)

/-- One pass through the body of the inner loop of `op_drw`, for the column `col`
of the sprite row `byte` drawn on row `row`. -/
def drw_pixel (byte vx vy row col : Nat) (s : Machine) : Machine :=
  let sprite_bit := (byte >>> (7 - col)) &&& 0x01
  if sprite_bit = 0 then s
  else
    let px := (vx + col) % WIDTH
    let py := (vy + row) % HEIGHT
    let s1 := if s.framebuffer py px = 1 then s.setV 0xF 1 else s
    s1.setFB py px (s1.framebuffer py px ^^^ 1)

/-- The inner loop of `op_drw`: `for (col = 0; col < 8; col++)`. -/
def drw_row (byte vx vy row : Nat) (s : Machine) : Machine :=
  (List.range 8).foldl (fun acc col => drw_pixel byte vx vy row col acc) s

/-- One pass through the body of the outer loop of `op_drw`:
`uint8_t byte = RAM[I + row];` and then the inner loop. -/
def drw_step (vx vy : Nat) (s : Machine) (row : Nat) : Except Trap Machine :=
  match s.readRAM (s.I + row) with
  | .ok byte => .ok (drw_row byte vx vy row s)
  | .error e => .error e

/-- Handler `op_drw` (Dxyn).  `VF = 0` is assigned first; `vx`, `vy` are read next. -/
def op_drw (s : Machine) (opcode : Nat) : Except Trap Machine :=
  let s0 := s.setV 0xF 0
  let vx := s0.V (X opcode)
  let vy := s0.V (Y opcode)
  let n := N opcode
  match (List.range n).foldlM (drw_step vx vy) s0 with
  | .ok s1 => .ok { s1 with screen_needs_update := true }
  | .error e => .error e

/-- Handler `op_skp` (Ex9E). -/
def op_skp (env : Env) (s : Machine) (opcode : Nat) : Except Trap Machine :=
  let x := X opcode
  match is_key_pressed (env.IsKeyDown 0) (s.V x) with
  | .ok b => .ok (if b then { s with PC := (s.PC + 2) % 65536 } else s)
  | .error e => .error e

/-- Handler `op_sknp` (ExA1). -/
def op_sknp (env : Env) (s : Machine) (opcode : Nat) : Except Trap Machine :=
  let x := X opcode
  match is_key_pressed (env.IsKeyDown 0) (s.V x) with
  | .ok b => .ok (if !b then { s with PC := (s.PC + 2) % 65536 } else s)
  | .error e => .error e

/-- Handler `op_ld_vx_dt` (Fx07): `V[x] = (uint8_t)DT;`. -/
def op_ld_vx_dt (s : Machine) (opcode : Nat) : Machine :=
  s.setV (X opcode) (s.DT % 256)

/-- The loop `while (key == 0xFF) { key = get_key_pressed(); }` of `op_ld_vx_k`,
started at the keyboard scan number `t`, with `fuel` bounding the number of scans. -/
def wait_key (env : Env) : Nat → Nat → Option Nat
  | 0, _ => none
  | fuel + 1, t =>
    let key := get_key_pressed (env.IsKeyDown t)
    if key = 0xFF then wait_key env fuel (t + 1) else some key

/-- Handler `op_ld_vx_k` (Fx0A). -/
def op_ld_vx_k (env : Env) (fuel : Nat) (s : Machine) (opcode : Nat) : Except Trap Machine :=
  let x := X opcode
  match wait_key env fuel 0 with
  | some key => .ok (s.setV x key)
  | none => .error .still_polling

/-- Handler `op_ld_dt_vx` (Fx15). -/
def op_ld_dt_vx (s : Machine) (opcode : Nat) : Machine :=
  { s with DT := s.V (X opcode) }

/-- Handler `op_ld_st_vx` (Fx18). -/
def op_ld_st_vx (s : Machine) (opcode : Nat) : Machine :=
  { s with ST := s.V (X opcode) }

/-- Handler `op_add_i_vx` (Fx1E): `I = V[x] + I;`. -/
def op_add_i_vx (s : Machine) (opcode : Nat) : Machine :=
  { s with I := (s.V (X opcode) + s.I) % 65536 }

/-- Handler `op_ld_f_vx` (Fx29): `I = (uint16_t)(FONT_BASE_ADDR + (V[x] * 5));`. -/
def op_ld_f_vx (s : Machine) (opcode : Nat) : Machine :=
  { s with I := (FONT_BASE_ADDR + s.V (X opcode) * 5) % 65536 }

/-- Handler `op_ld_b_vx` (Fx33). -/
def op_ld_b_vx (s : Machine) (opcode : Nat) : Except Trap Machine :=
  let x := X opcode
  match s.writeRAM s.I (s.V x / 100) with
  | .error e => .error e
  | .ok s1 =>
    match s1.writeRAM (s1.I + 1) ((s1.V x / 10) % 10) with
    | .error e => .error e
    | .ok s2 => s2.writeRAM (s2.I + 2) (s2.V x % 10)

/-- Handler `op_ld_i_vx` (Fx55): `memcpy(RAM + I, V, x + 1);`. -/
def op_ld_i_vx (s : Machine) (opcode : Nat) : Except Trap Machine :=
  let x := X opcode
  if s.I + x < RAM_SIZE then
    .ok { s with RAM := fun a => if s.I ≤ a ∧ a ≤ s.I + x then s.V (a - s.I) else s.RAM a }
  else .error .out_of_bounds

/-- One pass through the loop body of `op_ld_vx_i`: `V[idx] = RAM[I + idx];`. -/
def ld_vx_i_step (s : Machine) (idx : Nat) : Except Trap Machine :=
  match s.readRAM (s.I + idx) with
  | .ok b => .ok (s.setV idx b)
  | .error e => .error e

/-- Handler `op_ld_vx_i` (Fx65): `for (idx = 0; idx <= x; idx++)`. -/
def op_ld_vx_i (s : Machine) (opcode : Nat) : Except Trap Machine :=
  let x := X opcode
  (List.range (x + 1)).foldlM ld_vx_i_step s

/-! ## Dispatch (lines 577-711) -/

/-- The function `op_0xxx_handler`: a switch on the whole opcode. -/
def op_0xxx_handler (s : Machine) (opcode : Nat) : Except Trap Machine :=
  if opcode = 0x00E0 then .ok (op_cls s opcode)
  else if opcode = 0x00EE then op_ret s opcode
  else .ok (op_sys s opcode)

/-- The function `op_8xxx_handler`: a switch on `opcode & 0x000F`. -/
def op_8xxx_handler (s : Machine) (opcode : Nat) : Except Trap Machine :=
  let sel := opcode &&& 0x000F
  if sel = 0x0 then .ok (op_ld_vx_vy s opcode)
  else if sel = 0x1 then .ok (op_or s opcode)
  else if sel = 0x2 then .ok (op_and s opcode)
  else if sel = 0x3 then .ok (op_xor s opcode)
  else if sel = 0x4 then .ok (op_add_vx_vy s opcode)
  else if sel = 0x5 then .ok (op_sub s opcode)
  else if sel = 0x6 then .ok (op_shr s opcode)
  else if sel = 0x7 then .ok (op_subn s opcode)
  else if sel = 0xE then .ok (op_shl s opcode)
  else .error .assert_failed

/-- The function `op_Exxx_handler`: a switch on `opcode & 0x00FF`. -/
def op_Exxx_handler (env : Env) (s : Machine) (opcode : Nat) : Except Trap Machine :=
  let sel := opcode &&& 0x00FF
  if sel = 0x9E then op_skp env s opcode
  else if sel = 0xA1 then op_sknp env s opcode
  else .error .assert_failed

/-- The function `op_Fxxx_handler`: a switch on `opcode & 0x00FF`. -/
def op_Fxxx_handler (env : Env) (fuel : Nat) (s : Machine) (opcode : Nat) :
    Except Trap Machine :=
  let sel := opcode &&& 0x00FF
  if sel = 0x07 then .ok (op_ld_vx_dt s opcode)
  else if sel = 0x0A then op_ld_vx_k env fuel s opcode
  else if sel = 0x15 then .ok (op_ld_dt_vx s opcode)
  else if sel = 0x18 then .ok (op_ld_st_vx s opcode)
  else if sel = 0x1E then .ok (op_add_i_vx s opcode)
  else if sel = 0x29 then .ok (op_ld_f_vx s opcode)
  else if sel = 0x33 then op_ld_b_vx s opcode
  else if sel = 0x55 then op_ld_i_vx s opcode
  else if sel = 0x65 then op_ld_vx_i s opcode
  else .error .assert_failed

/-- The function `handle_opcode`: `main_table[(opcode >> 12) & 0x0F](opcode)`. -/
def handle_opcode (env : Env) (fuel : Nat) (s : Machine) (opcode : Nat) :
    Except Trap Machine :=
  let category := (opcode >>> 12) &&& 0x0F
  if category = 0x0 then op_0xxx_handler s opcode
  else if category = 0x1 then .ok (op_jp_addr s opcode)
  else if category = 0x2 then op_call s opcode
  else if category = 0x3 then .ok (op_se_vx_byte s opcode)
  else if category = 0x4 then .ok (op_sne_vx_byte s opcode)
  else if category = 0x5 then .ok (op_se_vx_vy s opcode)
  else if category = 0x6 then .ok (op_ld_vx_byte s opcode)
  else if category = 0x7 then .ok (op_add_vx_byte s opcode)
  else if category = 0x8 then op_8xxx_handler s opcode
  else if category = 0x9 then .ok (op_sne_vx_vy s opcode)
  else if category = 0xA then .ok (op_ld_i_addr s opcode)
  else if category = 0xB then .ok (op_jp_v0_addr s opcode)
  else if category = 0xC then .ok (op_rnd env s opcode)
  else if category = 0xD then op_drw s opcode
  else if category = 0xE then op_Exxx_handler env s opcode
  else op_Fxxx_handler env fuel s opcode

/-! ## The main loop (lines 777-796) -/

/-- The head of the frame loop: `if (DT > 0) DT--; if (ST > 0) ST--;`. -/
def tick_timers (s : Machine) : Machine :=
  let s1 := if s.DT > 0 then { s with DT := s.DT - 1 } else s
  if s1.ST > 0 then { s1 with ST := s1.ST - 1 } else s1

/-- The instruction word assembled by the step loop:
`(uint16_t)((RAM[PC] << 8U) | RAM[PC + 1])`. -/
def fetch (s : Machine) : Nat :=
  ((s.RAM s.PC <<< 8) ||| s.RAM (s.PC + 1)) % 65536

/-- One pass through the body of the step loop: the bounds assertion, the fetch,
`PC += 2`, and the dispatch.  Past the assertion `PC + 1 < 0xFFF`, so both bytes
read by `fetch` lie inside RAM. -/
def cpu_step (env : Env) (fuel : Nat) (s : Machine) : Except Trap Machine :=
  if s.PC + 1 ≥ PROGRAM_REGION_END then .error .assert_failed
  else
    let opcode := fetch s
    handle_opcode env fuel { s with PC := (s.PC + 2) % 65536 } opcode

/-- The first `k` passes of the step loop; `envs i` is what pass `i` observes. -/
def cpu_steps (envs : Nat → Env) (fuel : Nat) : Nat → Machine → Except Trap Machine
  | 0, s => .ok s
  | k + 1, s =>
    match cpu_steps envs fuel k s with
    | .ok s1 => cpu_step (envs k) fuel s1
    | .error e => .error e

/-- One pass through the frame loop, up to the rendering calls: the timer tick and
`CPU_STEPS_PER_FRAME` instruction steps. -/
def frame (envs : Nat → Env) (fuel : Nat) (s : Machine) : Except Trap Machine :=
  cpu_steps envs fuel CPU_STEPS_PER_FRAME (tick_timers s)

/-! ## Concrete inputs used to exercise the theorems -/

/-- An outside world in which no key is ever down and `rand()` returns 0. -/
def env_idle : Env := ⟨fun _ _ => false, 0⟩

/-- The initial machine with `V0 = 200`, `V1 = 100`. -/
def ex_regs : Machine := (Machine.init.setV 0 200).setV 1 100

/-- The initial machine with `V0 = 5`, `VF = 3`. -/
def ex_flag : Machine := (Machine.init.setV 0 5).setV 0xF 3

/-- The sprite column that lands on display column `px` when the sprite starts at `vx`. -/
def col_of (vx px : Nat) : Nat := (px + 64 - vx % 64) % 64

/-- The sprite row that lands on display row `py` when the sprite starts at `vy`. -/
def row_of (vy py : Nat) : Nat := (py + 32 - vy % 32) % 32

/-- Everything except the framebuffer and the flag register agrees in `s` and `t`. -/
def Machine.same_but_display (s t : Machine) : Prop :=
  t.I = s.I ∧ t.DT = s.DT ∧ t.ST = s.ST ∧ t.stack = s.stack ∧ t.stack_ptr = s.stack_ptr ∧
    t.PC = s.PC ∧ t.RAM = s.RAM ∧ t.screen_needs_update = s.screen_needs_update ∧
    ∀ i, i ≠ 0xF → t.V i = s.V i

/-- The horizontal coordinate `vx` that `op_drw` reads, after its `VF = 0`. -/
def drw_vx (s : Machine) (opcode : Nat) : Nat := (s.setV 0xF 0).V (X opcode)

/-- The vertical coordinate `vy` that `op_drw` reads, after its `VF = 0`. -/
def drw_vy (s : Machine) (opcode : Nat) : Nat := (s.setV 0xF 0).V (Y opcode)

/-- The initial machine with `I` at the glyph of digit 0, `V0 = 62`, `V1 = 30`. -/
def ex_draw : Machine := { (Machine.init.setV 0 62).setV 1 30 with I := 0x050 }

/-- The machine `ex_draw` with the framebuffer cell at row 30, column 62 on. -/
def ex_overlap : Machine := ex_draw.setFB 30 62 1

/-- The initial machine with `PC = 0x300` and two return addresses stacked. -/
def ex_stack : Machine :=
  { Machine.init with PC := 0x300, stack_ptr := 2, stack := upd (upd (fun _ => 0) 1 0x204) 2 0x2A0 }

/-- The timers and the program counter of a machine. -/
def Machine.clock (s : Machine) : Nat × Nat × Nat := (s.DT, s.ST, s.PC)

/-- The initial machine with both timers at 3 and the word 0x6005 at the program base. -/
def ex_timers : Machine :=
  { Machine.init with DT := 3, ST := 3, RAM := upd (upd Machine.init.RAM 0x200 0x60) 0x201 0x05 }

/-- The instruction words that the dispatch tables route to a handler which is
none of the jumps (1nnn, Bnnn), the call (2nnn), the return (00EE) and the skips
(3xkk, 4xkk, 5xy0, 9xy0, Ex9E, ExA1), and for which no table ends in
`assert(false)`. -/
def plain_instruction (op : Nat) : Prop :=
  (op / 4096 % 16 = 0x0 ∧ op ≠ 0x00EE) ∨ op / 4096 % 16 = 0x6 ∨ op / 4096 % 16 = 0x7 ∨
    (op / 4096 % 16 = 0x8 ∧ (op % 16 ≤ 0x7 ∨ op % 16 = 0xE)) ∨
    op / 4096 % 16 = 0xA ∨ op / 4096 % 16 = 0xC ∨ op / 4096 % 16 = 0xD ∨
    (op / 4096 % 16 = 0xF ∧
      (op % 256 = 0x07 ∨ op % 256 = 0x0A ∨ op % 256 = 0x15 ∨ op % 256 = 0x18 ∨
        op % 256 = 0x1E ∨ op % 256 = 0x29 ∨ op % 256 = 0x33 ∨ op % 256 = 0x55 ∨
        op % 256 = 0x65))

/-- The memory operands of the instruction word lie inside RAM (Dxyn, Fx33, Fx55,
Fx65), and the key wait of Fx0A sees a key within `fuel` keyboard scans. -/
def operands_ready (env : Env) (fuel : Nat) (s : Machine) (op : Nat) : Prop :=
  (op / 4096 % 16 = 0xD → s.I + op % 16 ≤ RAM_SIZE) ∧
    (op / 4096 % 16 = 0xF → op % 256 = 0x33 → s.I + 2 < RAM_SIZE) ∧
    (op / 4096 % 16 = 0xF → op % 256 = 0x55 ∨ op % 256 = 0x65 →
      s.I + op / 256 % 16 < RAM_SIZE) ∧
    (op / 4096 % 16 = 0xF → op % 256 = 0x0A → ∃ key, wait_key env fuel 0 = some key)

/-- The initial machine with `V1 = 7` and the word 0x3107 at the program base. -/
def ex_skip : Machine :=
  { Machine.init.setV 1 7 with RAM := upd (upd Machine.init.RAM 0x200 0x31) 0x201 0x07 }

/-- The initial machine with the image `[0x60, 0x05, 0x70, 0x03]` at the program base. -/
def ex_ld_add : Machine :=
  { Machine.init with
    RAM := upd (upd (upd (upd Machine.init.RAM 0x200 0x60) 0x201 0x05) 0x202 0x70) 0x203 0x03 }

/-- The initial machine with `I` at the glyph of digit 0 and the image
`[0xA2, 0x50, 0xD0, 0x05]` at the program base. -/
def ex_glyph_A2 : Machine :=
  { Machine.init with
    I := FONT_BASE_ADDR
    RAM := upd (upd (upd (upd Machine.init.RAM 0x200 0xA2) 0x201 0x50) 0x202 0xD0) 0x203 0x05 }

/-- The initial machine with `I` at the glyph of digit 0 and the image
`[0xA0, 0x50, 0xD0, 0x05]` at the program base. -/
def ex_glyph_A0 : Machine :=
  { Machine.init with
    I := FONT_BASE_ADDR
    RAM := upd (upd (upd (upd Machine.init.RAM 0x200 0xA0) 0x201 0x50) 0x202 0xD0) 0x203 0x05 }

/-- The initial machine with `PC = 0xFFE` and the word 0x6005 in the last two
bytes of the program region, 0xFFE and 0xFFF. -/
def ex_last_word : Machine :=
  { Machine.init with PC := 0xFFE, RAM := upd (upd Machine.init.RAM 0xFFE 0x60) 0xFFF 0x05 }

/-- The initial machine with `V2 = 0xA`. -/
def ex_digit : Machine := Machine.init.setV 2 0xA

/-- The initial machine with `VF = 200` and `V0 = 100`. -/
def ex_flag_dest : Machine := (Machine.init.setV 0xF 200).setV 0 100

/-- The initial machine with `VF = 201`. -/
def ex_flag_odd : Machine := Machine.init.setV 0xF 201

/-- An outside world in which the key Q (logical key 4) is down from the third
keyboard scan on, and no key before. -/
def env_press_q : Env := ⟨fun t key => decide (2 ≤ t ∧ key = 81), 0⟩

/-- The initial machine with `I = 0xFFE`, two bytes below the end of RAM. -/
def ex_high : Machine := { Machine.init with I := 0xFFE }

/-- The initial machine with `VF = 5` and `I` at the glyph of digit 0. -/
def ex_flag_coord : Machine := { Machine.init.setV 0xF 5 with I := 0x050 }

/-- The initial machine with `V3 = 254` and `I = 0x300`. -/
def ex_bcd : Machine := { Machine.init.setV 3 254 with I := 0x300 }

/-! ## Basic facts: operand extraction and array update -/

theorem and_0F (n : Nat) : n &&& 0x0F = n % 16 := Nat.and_pow_two_sub_one_eq_mod n 4

theorem and_FF (n : Nat) : n &&& 0xFF = n % 256 := Nat.and_pow_two_sub_one_eq_mod n 8

theorem and_0FFF (n : Nat) : n &&& 0x0FFF = n % 4096 := Nat.and_pow_two_sub_one_eq_mod n 12

theorem X_eq (op : Nat) : X op = op / 256 % 16 := by
  unfold X; rw [and_0F, Nat.shiftRight_eq_div_pow]; omega

theorem Y_eq (op : Nat) : Y op = op / 16 % 16 := by
  unfold Y; rw [and_0F, Nat.shiftRight_eq_div_pow]; omega

theorem N_eq (op : Nat) : N op = op % 16 := by
  unfold N; rw [and_0F]; omega

theorem KK_eq (op : Nat) : KK op = op % 256 := by
  unfold KK; rw [and_FF]; omega

theorem NNN_eq (op : Nat) : NNN op = op % 4096 := by
  unfold NNN; rw [and_0FFF]; omega

theorem category_eq (op : Nat) : (op >>> 12) &&& 0x0F = op / 4096 % 16 := by
  rw [and_0F, Nat.shiftRight_eq_div_pow]

theorem upd_same (f : Nat → Nat) (i v : Nat) : upd f i v i = v := by simp [upd]

theorem upd_other (f : Nat → Nat) (i v j : Nat) (h : j ≠ i) : upd f i v j = f j := by
  simp [upd, h]

/-- Category 8 is dispatched to `op_8xxx_handler`. -/
theorem handle_8xxx (env : Env) (fuel : Nat) (s : Machine) (op : Nat)
    (h : op / 4096 % 16 = 8) : handle_opcode env fuel s op = op_8xxx_handler s op := by
  unfold handle_opcode
  simp only [category_eq, h]
  simp

/-! ## ALU operations -/

/-- C1: add-with-carry (8xy4).  For a destination `x` in 0..14, any source `y` in
0..15 and byte values `a = Vx`, `b = Vy`, the instruction is dispatched to
`op_add_vx_vy`, which leaves `Vx = (a + b) mod 256`, `VF = 1` exactly when
`a + b > 255` and `VF = 0` otherwise, and every other register unchanged. -/
theorem add_vx_vy_carry (env : Env) (fuel : Nat) (s : Machine) (x y : Nat)
    (hx : x < 15) (hy : y < 16) (ha : s.V x < 256) (hb : s.V y < 256) :
    handle_opcode env fuel s (0x8004 + 256 * x + 16 * y)
        = .ok (op_add_vx_vy s (0x8004 + 256 * x + 16 * y)) ∧
      (op_add_vx_vy s (0x8004 + 256 * x + 16 * y)).V x = (s.V x + s.V y) % 256 ∧
      (op_add_vx_vy s (0x8004 + 256 * x + 16 * y)).V 0xF
        = (if s.V x + s.V y > 255 then 1 else 0) ∧
      ∀ i, i ≠ x → i ≠ 0xF → (op_add_vx_vy s (0x8004 + 256 * x + 16 * y)).V i = s.V i := by
  have hX : X (0x8004 + 256 * x + 16 * y) = x := by rw [X_eq]; omega
  have hY : Y (0x8004 + 256 * x + 16 * y) = y := by rw [Y_eq]; omega
  refine ⟨?_, ?_, ?_, ?_⟩
  · rw [handle_8xxx _ _ _ _ (by omega)]
    unfold op_8xxx_handler
    have : (0x8004 + 256 * x + 16 * y) &&& 0x000F = 4 := by rw [and_0F]; omega
    simp [this]
  · simp only [op_add_vx_vy, hX, hY, Machine.setV, upd_same, and_FF]
    omega
  · have : (15:Nat) ≠ x := by omega
    simp only [op_add_vx_vy, hX, hY, Machine.setV, upd_other _ _ _ _ this, upd_same]
    split <;> split <;> omega
  · intro i h1 h2
    simp only [op_add_vx_vy, hX, hY, Machine.setV, upd_other _ _ _ _ h1, upd_other _ _ _ _ h2]

/-- C1 at `V0 = 200`, `V1 = 100`, instruction 0x8014: `V0` becomes 44 and `VF` 1. -/
theorem add_vx_vy_carry_witness :
    (0 < 15 ∧ 1 < 16 ∧ ex_regs.V 0 < 256 ∧ ex_regs.V 1 < 256) ∧
    (handle_opcode env_idle 0 ex_regs (0x8004 + 256 * 0 + 16 * 1)
        = .ok (op_add_vx_vy ex_regs (0x8004 + 256 * 0 + 16 * 1)) ∧
      (op_add_vx_vy ex_regs (0x8004 + 256 * 0 + 16 * 1)).V 0
        = (ex_regs.V 0 + ex_regs.V 1) % 256 ∧
      (op_add_vx_vy ex_regs (0x8004 + 256 * 0 + 16 * 1)).V 0xF
        = (if ex_regs.V 0 + ex_regs.V 1 > 255 then 1 else 0) ∧
      ∀ i, i ≠ 0 → i ≠ 0xF →
        (op_add_vx_vy ex_regs (0x8004 + 256 * 0 + 16 * 1)).V i = ex_regs.V i) :=
  ⟨by decide, add_vx_vy_carry env_idle 0 ex_regs 0 1 (by decide) (by decide)
    (by decide) (by decide)⟩

/-- For a byte, `(a & 0x80) >> 7` is the top bit `a / 128`. -/
theorem top_bit (a : Nat) (h : a < 256) : (a &&& 0x80) >>> 7 = a / 128 := by
  interval_cases a <;> rfl

/-- Subtract on registers other than the flag register: with `x` and `y` both in
0..14 the handler leaves `Vx = (a - b) mod 256` and `VF = 1` exactly when `a ≥ b`. -/
theorem op_sub_plain (s : Machine) (x y : Nat) (hx : x < 15) (hy : y < 15)
    (ha : s.V x < 256) (hb : s.V y < 256) :
    ((op_sub s (0x8005 + 256 * x + 16 * y)).V x : Int) = ((s.V x : Int) - s.V y) % 256 ∧
      (op_sub s (0x8005 + 256 * x + 16 * y)).V 0xF = (if s.V x ≥ s.V y then 1 else 0) := by
  have hX : X (0x8005 + 256 * x + 16 * y) = x := by rw [X_eq]; omega
  have hY : Y (0x8005 + 256 * x + 16 * y) = y := by rw [Y_eq]; omega
  have h1 : x ≠ 15 := by omega
  have h2 : y ≠ 15 := by omega
  have h3 : (15:Nat) ≠ x := by omega
  constructor
  · simp only [op_sub, hX, hY, Machine.setV, upd_same, upd_other _ _ _ _ h1,
      upd_other _ _ _ _ h2]
    omega
  · simp only [op_sub, hX, hY, Machine.setV, upd_same, upd_other _ _ _ _ h3]

/-- C2: subtract (8xy5) with the flag register as source.  With `V0 = 5` and
`VF = 3` the instruction 0x80F5 is dispatched to `op_sub` and completes, leaving
`VF = 1` and `V0 = 4`: the subtrahend is the flag just written, not the value 3
that `VF` held before the operation, for which `(5 - 3) mod 256 = 2`. -/
theorem sub_flag_source_reads_new_flag :
    ex_flag.V 0 = 5 ∧ ex_flag.V 0xF = 3 ∧
      handle_opcode env_idle 0 ex_flag 0x80F5 = .ok (op_sub ex_flag 0x80F5) ∧
      (op_sub ex_flag 0x80F5).V 0xF = 1 ∧
      (op_sub ex_flag 0x80F5).V 0 = 4 ∧
      (op_sub ex_flag 0x80F5).V 0 ≠ (5 + 256 - 3) % 256 := by
  refine ⟨by decide, by decide, ?_, by decide, by decide, by decide⟩
  rw [handle_8xxx _ _ _ _ (by decide)]
  rfl

/-- C3: shifts (8xy6, 8xyE).  For `x` in 0..14, any `y` in 0..15 and a byte
`a = Vx`: shift-right is dispatched to `op_shr` and leaves `Vx = a / 2`,
`VF = a mod 2`; shift-left is dispatched to `op_shl` and leaves
`Vx = (2 * a) mod 256`, `VF = a / 128`.  The resulting state is the same for
every other index `y2`, and the resulting `Vx` and `VF` are the same whatever
value a register `y` other than `x` holds. -/
theorem shifts_use_only_vx (env : Env) (fuel : Nat) (s : Machine) (x y : Nat)
    (hx : x < 15) (hy : y < 16) (ha : s.V x < 256) :
    (handle_opcode env fuel s (0x8006 + 256 * x + 16 * y)
        = .ok (op_shr s (0x8006 + 256 * x + 16 * y)) ∧
      (op_shr s (0x8006 + 256 * x + 16 * y)).V x = s.V x / 2 ∧
      (op_shr s (0x8006 + 256 * x + 16 * y)).V 0xF = s.V x % 2) ∧
    (handle_opcode env fuel s (0x800E + 256 * x + 16 * y)
        = .ok (op_shl s (0x800E + 256 * x + 16 * y)) ∧
      (op_shl s (0x800E + 256 * x + 16 * y)).V x = (2 * s.V x) % 256 ∧
      (op_shl s (0x800E + 256 * x + 16 * y)).V 0xF = s.V x / 128) ∧
    (∀ y2, y2 < 16 →
      op_shr s (0x8006 + 256 * x + 16 * y2) = op_shr s (0x8006 + 256 * x + 16 * y) ∧
      op_shl s (0x800E + 256 * x + 16 * y2) = op_shl s (0x800E + 256 * x + 16 * y)) ∧
    (∀ v, y ≠ x →
      (op_shr (s.setV y v) (0x8006 + 256 * x + 16 * y)).V x
          = (op_shr s (0x8006 + 256 * x + 16 * y)).V x ∧
      (op_shr (s.setV y v) (0x8006 + 256 * x + 16 * y)).V 0xF
          = (op_shr s (0x8006 + 256 * x + 16 * y)).V 0xF ∧
      (op_shl (s.setV y v) (0x800E + 256 * x + 16 * y)).V x
          = (op_shl s (0x800E + 256 * x + 16 * y)).V x ∧
      (op_shl (s.setV y v) (0x800E + 256 * x + 16 * y)).V 0xF
          = (op_shl s (0x800E + 256 * x + 16 * y)).V 0xF) := by
  have hXr : ∀ y2, y2 < 16 → X (0x8006 + 256 * x + 16 * y2) = x := by
    intro y2 h; rw [X_eq]; omega
  have hXl : ∀ y2, y2 < 16 → X (0x800E + 256 * x + 16 * y2) = x := by
    intro y2 h; rw [X_eq]; omega
  have h1 : x ≠ 15 := by omega
  have h3 : (15:Nat) ≠ x := by omega
  refine ⟨⟨?_, ?_, ?_⟩, ⟨?_, ?_, ?_⟩, ?_, ?_⟩
  · rw [handle_8xxx _ _ _ _ (by omega)]
    unfold op_8xxx_handler
    have : (0x8006 + 256 * x + 16 * y) &&& 0x000F = 6 := by rw [and_0F]; omega
    simp [this]
  · simp only [op_shr, hXr y hy, Machine.setV, upd_same, upd_other _ _ _ _ h1,
      Nat.shiftRight_eq_div_pow, Nat.pow_one]
  · simp only [op_shr, hXr y hy, Machine.setV, upd_same, upd_other _ _ _ _ h3,
      Nat.and_one_is_mod]
  · rw [handle_8xxx _ _ _ _ (by omega)]
    unfold op_8xxx_handler
    have : (0x800E + 256 * x + 16 * y) &&& 0x000F = 14 := by rw [and_0F]; omega
    simp [this]
  · simp only [op_shl, hXl y hy, Machine.setV, upd_same, upd_other _ _ _ _ h1,
      Nat.shiftLeft_eq]
    omega
  · simp only [op_shl, hXl y hy, Machine.setV, upd_same, upd_other _ _ _ _ h3]
    exact top_bit _ ha
  · intro y2 h2
    simp only [op_shr, op_shl, hXr y hy, hXr y2 h2, hXl y hy, hXl y2 h2, and_self]
  · intro v hyx
    have h4 : x ≠ y := fun h => hyx h.symm
    simp only [op_shr, op_shl, hXr y hy, hXl y hy, Machine.setV, upd_same,
      upd_other _ _ _ _ h1, upd_other _ _ _ _ h3, upd_other _ _ _ _ h4, and_self]

/-- C3 at `V0 = 200`, instructions 0x8016 and 0x801E. -/
theorem shifts_use_only_vx_witness :
    (0 < 15 ∧ 1 < 16 ∧ ex_regs.V 0 < 256) ∧
      (op_shr ex_regs (0x8006 + 256 * 0 + 16 * 1)).V 0 = ex_regs.V 0 / 2 ∧
      (op_shl ex_regs (0x800E + 256 * 0 + 16 * 1)).V 0xF = ex_regs.V 0 / 128 :=
  have h := shifts_use_only_vx env_idle 0 ex_regs 0 1 (by decide) (by decide) (by decide)
  ⟨by decide, h.1.2.1, h.2.1.2.2⟩

/-- Unrolling the last pass of a loop over `0 .. k` in the `Except` monad. -/
theorem foldlM_range_succ (f : Machine → Nat → Except Trap Machine) (s : Machine) (k : Nat) :
    (List.range (k + 1)).foldlM f s =
      match (List.range k).foldlM f s with
      | .ok s1 => f s1 k
      | .error e => .error e := by
  rw [List.range_succ, List.foldlM_append]
  cases h : List.foldlM f s (List.range k) with
  | error e => rfl
  | ok s1 =>
    show (f s1 k >>= fun b => pure b) = f s1 k
    cases f s1 k <;> rfl

theorem sprite_bit_zero_iff (byte k : Nat) :
    ((byte >>> k) &&& 0x01 = 0) ↔ byte.testBit k = false := by
  rw [Nat.and_one_is_mod, Nat.shiftRight_eq_div_pow, Nat.testBit_to_div_mod]
  simp

theorem same_but_display_refl (s : Machine) : s.same_but_display s :=
  ⟨rfl, rfl, rfl, rfl, rfl, rfl, rfl, rfl, fun _ _ => rfl⟩

theorem same_but_display_trans {s t u : Machine} (h1 : s.same_but_display t)
    (h2 : t.same_but_display u) : s.same_but_display u := by
  obtain ⟨a1, a2, a3, a4, a5, a6, a7, a8, a9⟩ := h1
  obtain ⟨b1, b2, b3, b4, b5, b6, b7, b8, b9⟩ := h2
  exact ⟨b1.trans a1, b2.trans a2, b3.trans a3, b4.trans a4, b5.trans a5, b6.trans a6,
    b7.trans a7, b8.trans a8, fun i hi => (b9 i hi).trans (a9 i hi)⟩

/-- A sprite bit that is 0 leaves the machine alone. -/
theorem drw_pixel_skip (byte vx vy row col : Nat) (s : Machine)
    (hb : byte.testBit (7 - col) = false) : drw_pixel byte vx vy row col s = s := by
  unfold drw_pixel
  exact if_pos ((sprite_bit_zero_iff byte (7 - col)).2 hb)

/-- A sprite bit that is 1 flips its cell, after recording a collision. -/
theorem drw_pixel_set (byte vx vy row col : Nat) (s : Machine)
    (hb : byte.testBit (7 - col) = true) :
    drw_pixel byte vx vy row col s =
      (if s.framebuffer ((vy + row) % 32) ((vx + col) % 64) = 1 then s.setV 0xF 1 else s).setFB
        ((vy + row) % 32) ((vx + col) % 64)
        (s.framebuffer ((vy + row) % 32) ((vx + col) % 64) ^^^ 1) := by
  unfold drw_pixel
  have h0 : ¬ ((byte >>> (7 - col)) &&& 0x01 = 0) := by
    rw [sprite_bit_zero_iff, hb]; simp
  simp only []
  rw [if_neg h0]
  split <;> rfl

theorem drw_pixel_frame (byte vx vy row col : Nat) (s : Machine) :
    s.same_but_display (drw_pixel byte vx vy row col s) := by
  cases hb : byte.testBit (7 - col) with
  | false => rw [drw_pixel_skip _ _ _ _ _ _ hb]; exact same_but_display_refl s
  | true =>
    rw [drw_pixel_set _ _ _ _ _ _ hb]
    split
    · refine ⟨rfl, rfl, rfl, rfl, rfl, rfl, rfl, rfl, fun i hi => ?_⟩
      simp only [Machine.setFB, Machine.setV, upd_other _ _ _ _ hi]
    · exact ⟨rfl, rfl, rfl, rfl, rfl, rfl, rfl, rfl, fun _ _ => rfl⟩

theorem drw_pixel_fb (byte vx vy row col : Nat) (s : Machine) (py px : Nat) :
    (drw_pixel byte vx vy row col s).framebuffer py px =
      if byte.testBit (7 - col) = true ∧ py = (vy + row) % 32 ∧ px = (vx + col) % 64
      then s.framebuffer py px ^^^ 1 else s.framebuffer py px := by
  cases hb : byte.testBit (7 - col) with
  | false => rw [drw_pixel_skip _ _ _ _ _ _ hb]; simp
  | true =>
    rw [drw_pixel_set _ _ _ _ _ _ hb]
    by_cases hc : py = (vy + row) % 32 ∧ px = (vx + col) % 64
    · rw [if_pos (And.intro rfl hc)]
      obtain ⟨h1, h2⟩ := hc
      subst h1 h2
      simp [Machine.setFB]
    · have hc2 : ¬ (true = true ∧ py = (vy + row) % 32 ∧ px = (vx + col) % 64) :=
        fun h => hc h.2
      rw [if_neg hc2]
      simp only [Machine.setFB, if_neg hc]
      split <;> rfl

theorem drw_pixel_vf (byte vx vy row col : Nat) (s : Machine) :
    (drw_pixel byte vx vy row col s).V 0xF =
      if byte.testBit (7 - col) = true ∧
          s.framebuffer ((vy + row) % 32) ((vx + col) % 64) = 1
      then 1 else s.V 0xF := by
  cases hb : byte.testBit (7 - col) with
  | false => rw [drw_pixel_skip _ _ _ _ _ _ hb]; simp
  | true =>
    rw [drw_pixel_set _ _ _ _ _ _ hb]
    by_cases hc : s.framebuffer ((vy + row) % 32) ((vx + col) % 64) = 1
    · rw [if_pos hc, if_pos (And.intro rfl hc)]
      simp [Machine.setFB, Machine.setV, upd_same]
    · rw [if_neg hc, if_neg (fun h => hc h.2)]
      rfl

theorem col_of_iff (vx px j : Nat) (hj : j < 64) :
    px = (vx + j) % 64 ↔ (px < 64 ∧ col_of vx px = j) := by
  unfold col_of; omega

theorem row_of_iff (vy py k : Nat) (hk : k < 32) :
    py = (vy + k) % 32 ↔ (py < 32 ∧ row_of vy py = k) := by
  unfold row_of; omega

theorem exists_lt_succ_iff (p : Nat → Prop) (j : Nat) :
    (∃ c, c < j + 1 ∧ p c) ↔ ((∃ c, c < j ∧ p c) ∨ p j) := by
  constructor
  · rintro ⟨c, hc, hp⟩
    by_cases h : c = j
    · subst h; exact Or.inr hp
    · exact Or.inl ⟨c, by omega, hp⟩
  · rintro (⟨c, hc, hp⟩ | hp)
    · exact ⟨c, by omega, hp⟩
    · exact ⟨j, by omega, hp⟩

/-- The inner loop of `op_drw` after its first `j` columns. -/
theorem drw_cols_spec (byte vx vy row : Nat) (s : Machine) (j : Nat) (hj : j ≤ 64) :
    s.same_but_display
        ((List.range j).foldl (fun acc col => drw_pixel byte vx vy row col acc) s) ∧
      (∀ py px,
        ((List.range j).foldl (fun acc col => drw_pixel byte vx vy row col acc) s).framebuffer
            py px =
          if px < 64 ∧ py = (vy + row) % 32 ∧ col_of vx px < j ∧
              byte.testBit (7 - col_of vx px) = true
          then s.framebuffer py px ^^^ 1 else s.framebuffer py px) ∧
      ((List.range j).foldl (fun acc col => drw_pixel byte vx vy row col acc) s).V 0xF =
        if ∃ c, c < j ∧ (byte.testBit (7 - c) = true ∧
            s.framebuffer ((vy + row) % 32) ((vx + c) % 64) = 1)
        then 1 else s.V 0xF := by
  induction j with
  | zero =>
    refine ⟨same_but_display_refl s, fun py px => ?_, ?_⟩
    · simp
    · simp
  | succ j ih =>
    obtain ⟨ih1, ih2, ih3⟩ := ih (by omega)
    rw [List.range_succ, List.foldl_append, List.foldl_cons, List.foldl_nil]
    refine ⟨same_but_display_trans ih1 (drw_pixel_frame _ _ _ _ _ _), fun py px => ?_, ?_⟩
    · rw [drw_pixel_fb, ih2]
      have key := col_of_iff vx px j (by omega)
      by_cases h1 : px < 64 ∧ py = (vy + row) % 32
      · obtain ⟨hpx, hpy⟩ := h1
        by_cases h2 : col_of vx px = j
        · have e1 : px = (vx + j) % 64 := key.2 ⟨hpx, h2⟩
          have e2 : ¬ (col_of vx px < j) := by omega
          have e3 : col_of vx px < j + 1 := by omega
          simp only [hpx, hpy, e2, e3, h2, ← e1, true_and, false_and, and_true, if_false]
          simp
        · have e1 : ¬ (px = (vx + j) % 64) := fun h => h2 (key.1 h).2
          have e3 : col_of vx px < j + 1 ↔ col_of vx px < j := by omega
          simp only [e1, e3, and_false, if_false]
      · have e1 : ¬ (py = (vy + row) % 32 ∧ px = (vx + j) % 64) :=
          fun h => h1 ⟨(key.1 h.2).1, h.1⟩
        have e2 : ∀ q : Prop, ¬ (px < 64 ∧ py = (vy + row) % 32 ∧ q) :=
          fun q h => h1 ⟨h.1, h.2.1⟩
        rw [if_neg (e2 _), if_neg (e2 _), if_neg (fun h => e1 h.2)]
    · rw [drw_pixel_vf, ih2, ih3]
      have e2 : ¬ (col_of vx ((vx + j) % 64) < j) := by unfold col_of; omega
      have e3 : ¬ ((vx + j) % 64 < 64 ∧ (vy + row) % 32 = (vy + row) % 32 ∧
          col_of vx ((vx + j) % 64) < j ∧
          byte.testBit (7 - col_of vx ((vx + j) % 64)) = true) := fun h => e2 h.2.2.1
      rw [if_neg e3]
      by_cases h1 : byte.testBit (7 - j) = true ∧
          s.framebuffer ((vy + row) % 32) ((vx + j) % 64) = 1
      · rw [if_pos h1, if_pos ((exists_lt_succ_iff _ j).2 (Or.inr h1))]
      · rw [if_neg h1]
        by_cases h2 : ∃ c, c < j ∧ (byte.testBit (7 - c) = true ∧
            s.framebuffer ((vy + row) % 32) ((vx + c) % 64) = 1)
        · rw [if_pos h2, if_pos ((exists_lt_succ_iff _ j).2 (Or.inl h2))]
        · rw [if_neg h2, if_neg (fun h => ((exists_lt_succ_iff _ j).1 h).elim h2 h1)]

/-- The outer loop of `op_drw` after its first `k` rows, started in `s0`: it
completes when the rows read lie in RAM, touches only the framebuffer and `VF`,
flips exactly the cells under a 1 bit of the sprite, and raises `VF` exactly when
one of those cells was 1 in `s0`. -/
theorem drw_rows_spec (vx vy : Nat) (s0 : Machine) (k : Nat) (hk : k ≤ 32)
    (hI : s0.I + k ≤ 4096) :
    ∃ t, (List.range k).foldlM (drw_step vx vy) s0 = .ok t ∧ s0.same_but_display t ∧
      (∀ py px, t.framebuffer py px =
        if px < 64 ∧ py < 32 ∧ row_of vy py < k ∧ col_of vx px < 8 ∧
            (s0.RAM (s0.I + row_of vy py)).testBit (7 - col_of vx px) = true
        then s0.framebuffer py px ^^^ 1 else s0.framebuffer py px) ∧
      ((∃ r, r < k ∧ ∃ c, c < 8 ∧ ((s0.RAM (s0.I + r)).testBit (7 - c) = true ∧
            s0.framebuffer ((vy + r) % 32) ((vx + c) % 64) = 1)) → t.V 0xF = 1) ∧
      (¬ (∃ r, r < k ∧ ∃ c, c < 8 ∧ ((s0.RAM (s0.I + r)).testBit (7 - c) = true ∧
            s0.framebuffer ((vy + r) % 32) ((vx + c) % 64) = 1)) → t.V 0xF = s0.V 0xF) := by
  induction k with
  | zero =>
    refine ⟨s0, rfl, same_but_display_refl s0, fun py px => ?_, ?_, fun _ => rfl⟩
    · simp
    · rintro ⟨r, hr, _⟩; omega
  | succ k ih =>
    obtain ⟨t, ht, hsame, hfb, hvf1, hvf0⟩ := ih (by omega) (by omega)
    have hIt : t.I = s0.I := hsame.1
    have hRt : t.RAM = s0.RAM := hsame.2.2.2.2.2.2.1
    have hstep : drw_step vx vy t k = .ok (drw_row (s0.RAM (s0.I + k)) vx vy k t) := by
      unfold drw_step Machine.readRAM
      rw [hIt, hRt, if_pos (by simp only [RAM_SIZE]; omega)]
    obtain ⟨c1, c2, c3⟩ := drw_cols_spec (s0.RAM (s0.I + k)) vx vy k t 8 (by omega)
    refine ⟨drw_row (s0.RAM (s0.I + k)) vx vy k t, ?_, same_but_display_trans hsame c1,
      fun py px => ?_, ?_⟩
    · rw [foldlM_range_succ, ht]; exact hstep
    · unfold drw_row
      rw [c2, hfb]
      have key := row_of_iff vy py k (by omega)
      by_cases h1 : py = (vy + k) % 32
      · obtain ⟨hpy, hrow⟩ := key.1 h1
        have e2 : ¬ (row_of vy py < k) := by omega
        have e3 : row_of vy py < k + 1 := by omega
        simp only [← h1, hpy, e2, e3, hrow, true_and, false_and, and_false, if_false]
        simp
      · by_cases hpy : py < 32
        · have e0 : row_of vy py ≠ k := fun h => h1 (key.2 ⟨hpy, h⟩)
          have e2 : row_of vy py < k + 1 ↔ row_of vy py < k := by omega
          simp only [h1, e2, false_and, and_false, if_false]
        · simp only [h1, hpy, false_and, and_false, if_false]
    · unfold drw_row
      rw [c3]
      have e2 : ¬ (row_of vy ((vy + k) % 32) < k) := by unfold row_of; omega
      have hcell : ∀ c, t.framebuffer ((vy + k) % 32) ((vx + c) % 64) =
          s0.framebuffer ((vy + k) % 32) ((vx + c) % 64) := by
        intro c
        rw [hfb, if_neg (fun h => e2 h.2.2.1)]
      simp only [hcell]
      by_cases h1 : ∃ c, c < 8 ∧ ((s0.RAM (s0.I + k)).testBit (7 - c) = true ∧
          s0.framebuffer ((vy + k) % 32) ((vx + c) % 64) = 1)
      · rw [if_pos h1]
        exact ⟨fun _ => rfl, fun h => absurd ((exists_lt_succ_iff _ k).2 (Or.inr h1)) h⟩
      · rw [if_neg h1]
        constructor
        · intro h
          exact hvf1 (((exists_lt_succ_iff _ k).1 h).resolve_right h1)
        · intro h
          exact hvf0 (fun h2 => h ((exists_lt_succ_iff _ k).2 (Or.inl h2)))

theorem N_lt (op : Nat) : N op < 16 := by rw [N_eq]; omega

/-- Category D is dispatched to `op_drw`. -/
theorem handle_Dxxx (env : Env) (fuel : Nat) (s : Machine) (op : Nat)
    (h : op / 4096 % 16 = 13) : handle_opcode env fuel s op = op_drw s op := by
  unfold handle_opcode
  simp only [category_eq, h]
  simp

/-- What `op_drw` does when the sprite rows lie in RAM: it completes, touches only
the framebuffer, `VF` and `screen_needs_update`, flips exactly the cells under a
1 bit of the sprite, and leaves `VF = 1` exactly when one of them was 1 before. -/
theorem op_drw_spec (s : Machine) (opcode : Nat) (hI : s.I + N opcode ≤ 4096) :
    ∃ t, op_drw s opcode = .ok t ∧
      (t.I = s.I ∧ t.DT = s.DT ∧ t.ST = s.ST ∧ t.stack = s.stack ∧
        t.stack_ptr = s.stack_ptr ∧ t.PC = s.PC ∧ t.RAM = s.RAM ∧
        ∀ i, i ≠ 0xF → t.V i = s.V i) ∧
      (∀ py px, t.framebuffer py px =
        if px < 64 ∧ py < 32 ∧ row_of (drw_vy s opcode) py < N opcode ∧
            col_of (drw_vx s opcode) px < 8 ∧
            (s.RAM (s.I + row_of (drw_vy s opcode) py)).testBit
              (7 - col_of (drw_vx s opcode) px) = true
        then s.framebuffer py px ^^^ 1 else s.framebuffer py px) ∧
      ((∃ r, r < N opcode ∧ ∃ c, c < 8 ∧ ((s.RAM (s.I + r)).testBit (7 - c) = true ∧
          s.framebuffer ((drw_vy s opcode + r) % 32) ((drw_vx s opcode + c) % 64) = 1)) →
        t.V 0xF = 1) ∧
      (¬ (∃ r, r < N opcode ∧ ∃ c, c < 8 ∧ ((s.RAM (s.I + r)).testBit (7 - c) = true ∧
          s.framebuffer ((drw_vy s opcode + r) % 32) ((drw_vx s opcode + c) % 64) = 1)) →
        t.V 0xF = 0) := by
  have hN := N_lt opcode
  obtain ⟨t, ht, hsame, hfb, hvf1, hvf0⟩ :=
    drw_rows_spec (drw_vx s opcode) (drw_vy s opcode) (s.setV 0xF 0) (N opcode)
      (by omega) hI
  obtain ⟨a1, a2, a3, a4, a5, a6, a7, _, a9⟩ := hsame
  refine ⟨{ t with screen_needs_update := true }, ?_, ⟨a1, a2, a3, a4, a5, a6, a7, ?_⟩,
    hfb, hvf1, ?_⟩
  · unfold op_drw
    simp only []
    unfold drw_vx drw_vy at ht
    rw [ht]
  · intro i hi
    rw [a9 i hi]
    exact upd_other _ _ _ _ hi
  · intro h
    rw [hvf0 h]
    exact upd_same s.V 0xF 0

/-- The closed form of "some 1 bit of the sprite lands on cell `(py, px)`". -/
theorem covered_iff (b : Nat → Nat) (vx vy n py px : Nat) (hn : n ≤ 32) :
    (px < 64 ∧ py < 32 ∧ row_of vy py < n ∧ col_of vx px < 8 ∧
        (b (row_of vy py)).testBit (7 - col_of vx px) = true) ↔
      (∃ r, r < n ∧ ∃ c, c < 8 ∧ (b r).testBit (7 - c) = true ∧
        (vx + c) % 64 = px ∧ (vy + r) % 32 = py) := by
  constructor
  · rintro ⟨h1, h2, h3, h4, h5⟩
    refine ⟨row_of vy py, h3, col_of vx px, h4, h5, ?_, ?_⟩
    · unfold col_of; omega
    · unfold row_of; omega
  · rintro ⟨r, hr, c, hc, hb, hpx, hpy⟩
    obtain ⟨e1, e2⟩ := (col_of_iff vx px c (by omega)).1 hpx.symm
    obtain ⟨e3, e4⟩ := (row_of_iff vy py r (by omega)).1 hpy.symm
    rw [e2, e4]
    exact ⟨e1, e3, hr, hc, hb⟩

theorem drw_vx_eq (s : Machine) (x y n : Nat) (hx : x < 16) (hy : y < 16) (hn : n < 16) :
    drw_vx s (0xD000 + 256 * x + 16 * y + n) = (s.setV 0xF 0).V x := by
  have hX : X (0xD000 + 256 * x + 16 * y + n) = x := by rw [X_eq]; omega
  unfold drw_vx; rw [hX]

theorem drw_vy_eq (s : Machine) (x y n : Nat) (_hx : x < 16) (hy : y < 16) (hn : n < 16) :
    drw_vy s (0xD000 + 256 * x + 16 * y + n) = (s.setV 0xF 0).V y := by
  have hY : Y (0xD000 + 256 * x + 16 * y + n) = y := by rw [Y_eq]; omega
  unfold drw_vy; rw [hY]

theorem drw_N_eq (x y n : Nat) (_hx : x < 16) (_hy : y < 16) (hn : n < 16) :
    N (0xD000 + 256 * x + 16 * y + n) = n := by
  rw [N_eq]; omega

/-- C4: draw (Dxyn) wraps around.  For `x`, `y` in 0..14, a height `n` in 0..15
and `I + n ≤ 4096` the instruction completes, and every cell `(px, py)` of the
64x32 framebuffer is its previous value XOR 1 if some row `r < n` and column
`c < 8` have bit `7 - c` of `RAM[I + r]` set with `(Vx + c) mod 64 = px` and
`(Vy + r) mod 32 = py`, and keeps its previous value otherwise. -/
theorem drw_wraps_around (env : Env) (fuel : Nat) (s : Machine) (x y n : Nat)
    (hx : x < 15) (hy : y < 15) (hn : n < 16) (hI : s.I + n ≤ 4096) :
    ∃ t, handle_opcode env fuel s (0xD000 + 256 * x + 16 * y + n) = .ok t ∧
      ∀ px py, px < 64 → py < 32 →
        ((∃ r, r < n ∧ ∃ c, c < 8 ∧ (s.RAM (s.I + r)).testBit (7 - c) = true ∧
            (s.V x + c) % 64 = px ∧ (s.V y + r) % 32 = py) →
          t.framebuffer py px = s.framebuffer py px ^^^ 1) ∧
        (¬ (∃ r, r < n ∧ ∃ c, c < 8 ∧ (s.RAM (s.I + r)).testBit (7 - c) = true ∧
            (s.V x + c) % 64 = px ∧ (s.V y + r) % 32 = py) →
          t.framebuffer py px = s.framebuffer py px) := by
  have hN := drw_N_eq x y n (by omega) (by omega) hn
  have hvx : drw_vx s (0xD000 + 256 * x + 16 * y + n) = s.V x := by
    rw [drw_vx_eq s x y n (by omega) (by omega) hn]
    exact upd_other _ _ _ _ (by omega)
  have hvy : drw_vy s (0xD000 + 256 * x + 16 * y + n) = s.V y := by
    rw [drw_vy_eq s x y n (by omega) (by omega) hn]
    exact upd_other _ _ _ _ (by omega)
  obtain ⟨t, ht, _, hfb, _, _⟩ :=
    op_drw_spec s (0xD000 + 256 * x + 16 * y + n) (by rw [hN]; exact hI)
  rw [hN, hvx, hvy] at hfb
  refine ⟨t, ?_, fun px py _ _ => ⟨fun h => ?_, fun h => ?_⟩⟩
  · rw [handle_Dxxx _ _ _ _ (by omega)]; exact ht
  · rw [hfb, if_pos ((covered_iff (fun r => s.RAM (s.I + r)) _ _ n py px (by omega)).2 h)]
  · rw [hfb, if_neg (fun h2 =>
      h ((covered_iff (fun r => s.RAM (s.I + r)) _ _ n py px (by omega)).1 h2))]

/-- C4 on the glyph of digit 0 drawn at (62, 30): bit 4 of its third row 0x90
falls on column 65 and row 32, and appears at column 1 of row 0. -/
theorem drw_wraps_around_witness :
    (0 < 15 ∧ 1 < 15 ∧ 5 < 16 ∧ ex_draw.I + 5 ≤ 4096) ∧
      ∃ t, handle_opcode env_idle 0 ex_draw (0xD000 + 256 * 0 + 16 * 1 + 5) = .ok t ∧
        t.framebuffer 0 1 = ex_draw.framebuffer 0 1 ^^^ 1 := by
  refine ⟨by decide, ?_⟩
  obtain ⟨t, ht, h⟩ :=
    drw_wraps_around env_idle 0 ex_draw 0 1 5 (by decide) (by decide) (by decide) (by decide)
  exact ⟨t, ht, (h 1 0 (by decide) (by decide)).1
    ⟨2, by decide, 3, by decide, by decide, by decide, by decide⟩⟩

/-- C5: the collision flag of draw (Dxyn).  For every `x`, `y`, `n` with
`I + n ≤ 4096` the instruction completes.  With `vx`, `vy` the coordinates the
handler uses (registers `x`, `y` read after `VF = 0`), every 1 bit `(r, c)` of
the sprite is XORed onto the cell at row `(vy + r) mod 32`, column
`(vx + c) mod 64`; afterwards `VF = 1` if for some row `r < n` and column `c < 8`
that cell was on (1) before the draw, and `VF = 0` otherwise. -/
theorem drw_collision_flag (env : Env) (fuel : Nat) (s : Machine) (x y n : Nat)
    (hx : x < 16) (hy : y < 16) (hn : n < 16) (hI : s.I + n ≤ 4096) :
    ∃ t, handle_opcode env fuel s (0xD000 + 256 * x + 16 * y + n) = .ok t ∧
      (∀ r c, r < n → c < 8 → (s.RAM (s.I + r)).testBit (7 - c) = true →
        t.framebuffer (((s.setV 0xF 0).V y + r) % 32) (((s.setV 0xF 0).V x + c) % 64) =
          s.framebuffer (((s.setV 0xF 0).V y + r) % 32) (((s.setV 0xF 0).V x + c) % 64)
            ^^^ 1) ∧
      ((∃ r, r < n ∧ ∃ c, c < 8 ∧ ((s.RAM (s.I + r)).testBit (7 - c) = true ∧
          s.framebuffer (((s.setV 0xF 0).V y + r) % 32)
            (((s.setV 0xF 0).V x + c) % 64) = 1)) → t.V 0xF = 1) ∧
      (¬ (∃ r, r < n ∧ ∃ c, c < 8 ∧ ((s.RAM (s.I + r)).testBit (7 - c) = true ∧
          s.framebuffer (((s.setV 0xF 0).V y + r) % 32)
            (((s.setV 0xF 0).V x + c) % 64) = 1)) → t.V 0xF = 0) := by
  have hN := drw_N_eq x y n hx hy hn
  have hvx := drw_vx_eq s x y n hx hy hn
  have hvy := drw_vy_eq s x y n hx hy hn
  obtain ⟨t, ht, _, hfb, hvf1, hvf0⟩ :=
    op_drw_spec s (0xD000 + 256 * x + 16 * y + n) (by rw [hN]; exact hI)
  rw [hN, hvx, hvy] at hfb hvf1 hvf0
  refine ⟨t, ?_, fun r c hr hc hb => ?_, hvf1, hvf0⟩
  · rw [handle_Dxxx _ _ _ _ (by omega)]; exact ht
  · rw [hfb, if_pos ((covered_iff (fun r => s.RAM (s.I + r)) _ _ n _ _ (by omega)).2
      ⟨r, hr, c, hc, hb, rfl, rfl⟩)]

/-- C5 on the glyph of digit 0 drawn at (62, 30) over a lit cell at row 30,
column 62: the first sprite bit erases it and `VF` ends as 1 although the four
later rows meet no lit cell. -/
theorem drw_collision_flag_witness :
    (0 < 16 ∧ 1 < 16 ∧ 5 < 16 ∧ ex_overlap.I + 5 ≤ 4096) ∧
      ∃ t, handle_opcode env_idle 0 ex_overlap (0xD000 + 256 * 0 + 16 * 1 + 5) = .ok t ∧
        t.V 0xF = 1 := by
  refine ⟨by decide, ?_⟩
  obtain ⟨t, ht, _, h1, _⟩ :=
    drw_collision_flag env_idle 0 ex_overlap 0 1 5 (by decide) (by decide) (by decide)
      (by decide)
  exact ⟨t, ht, h1 ⟨0, by decide, 0, by decide, by decide, by decide⟩⟩

/-- C6: draw is self-inverse.  For every `x`, `y`, `n` with `I + n ≤ 4096`,
executing the same Dxyn twice in a row completes both times and leaves the
framebuffer equal to the one before the first draw; and if some 1 bit of the
sprite landed on a cell that was off (0) before the first draw, the second draw
leaves `VF = 1`. -/
theorem drw_twice_restores (env1 env2 : Env) (fuel1 fuel2 : Nat) (s : Machine)
    (x y n : Nat) (hx : x < 16) (hy : y < 16) (hn : n < 16) (hI : s.I + n ≤ 4096) :
    ∃ t u, handle_opcode env1 fuel1 s (0xD000 + 256 * x + 16 * y + n) = .ok t ∧
      handle_opcode env2 fuel2 t (0xD000 + 256 * x + 16 * y + n) = .ok u ∧
      u.framebuffer = s.framebuffer ∧
      ((∃ r, r < n ∧ ∃ c, c < 8 ∧ ((s.RAM (s.I + r)).testBit (7 - c) = true ∧
          s.framebuffer (((s.setV 0xF 0).V y + r) % 32)
            (((s.setV 0xF 0).V x + c) % 64) = 0)) → u.V 0xF = 1) := by
  have hN := drw_N_eq x y n hx hy hn
  obtain ⟨t, ht, ⟨tI, _, _, _, _, _, tRAM, tV⟩, tfb, _, _⟩ :=
    op_drw_spec s (0xD000 + 256 * x + 16 * y + n) (by rw [hN]; exact hI)
  obtain ⟨u, hu, _, ufb, uvf1, _⟩ :=
    op_drw_spec t (0xD000 + 256 * x + 16 * y + n) (by rw [hN, tI]; exact hI)
  have hreg : ∀ i, (t.setV 0xF 0).V i = (s.setV 0xF 0).V i := by
    intro i
    by_cases hi : i = 0xF
    · subst hi
      exact (upd_same t.V 0xF 0).trans (upd_same s.V 0xF 0).symm
    · exact (upd_other t.V 0xF 0 i hi).trans ((tV i hi).trans (upd_other s.V 0xF 0 i hi).symm)
  have hvx : drw_vx t (0xD000 + 256 * x + 16 * y + n) = (s.setV 0xF 0).V x := by
    rw [drw_vx_eq t x y n hx hy hn, hreg]
  have hvy : drw_vy t (0xD000 + 256 * x + 16 * y + n) = (s.setV 0xF 0).V y := by
    rw [drw_vy_eq t x y n hx hy hn, hreg]
  rw [hN, drw_vx_eq s x y n hx hy hn, drw_vy_eq s x y n hx hy hn] at tfb
  rw [hN, hvx, hvy, tI, tRAM] at ufb uvf1
  refine ⟨t, u, ?_, ?_, ?_, ?_⟩
  · rw [handle_Dxxx _ _ _ _ (by omega)]; exact ht
  · rw [handle_Dxxx _ _ _ _ (by omega)]; exact hu
  · funext py px
    rw [ufb, tfb]
    split
    · exact Nat.xor_cancel_right _ _
    · rfl
  · rintro ⟨r, hr, c, hc, hb, hoff⟩
    refine uvf1 ⟨r, hr, c, hc, hb, ?_⟩
    rw [tfb, if_pos ((covered_iff (fun r => s.RAM (s.I + r)) _ _ n _ _ (by omega)).2
      ⟨r, hr, c, hc, hb, rfl, rfl⟩), hoff]
    rfl

/-- C6 on the glyph of digit 0 drawn twice at (62, 30) on a blank screen: the
framebuffer is blank again and the second draw reports a collision. -/
theorem drw_twice_restores_witness :
    (0 < 16 ∧ 1 < 16 ∧ 5 < 16 ∧ ex_draw.I + 5 ≤ 4096) ∧
      ∃ t u, handle_opcode env_idle 0 ex_draw (0xD000 + 256 * 0 + 16 * 1 + 5) = .ok t ∧
        handle_opcode env_idle 0 t (0xD000 + 256 * 0 + 16 * 1 + 5) = .ok u ∧
        u.framebuffer = ex_draw.framebuffer ∧ u.V 0xF = 1 := by
  refine ⟨by decide, ?_⟩
  obtain ⟨t, u, ht, hu, hfb, hvf⟩ :=
    drw_twice_restores env_idle env_idle 0 0 ex_draw 0 1 5 (by decide) (by decide)
      (by decide) (by decide)
  exact ⟨t, u, ht, hu, hfb, hvf ⟨0, by decide, 0, by decide, by decide, by decide⟩⟩

/-- Category 2 is dispatched to `op_call`. -/
theorem handle_2xxx (env : Env) (fuel : Nat) (s : Machine) (op : Nat)
    (h : op / 4096 % 16 = 2) : handle_opcode env fuel s op = op_call s op := by
  unfold handle_opcode
  simp only [category_eq, h]
  simp

/-- The word 0x00EE is dispatched to `op_ret`. -/
theorem handle_00EE (env : Env) (fuel : Nat) (s : Machine) :
    handle_opcode env fuel s 0x00EE = op_ret s 0x00EE := by
  unfold handle_opcode op_0xxx_handler
  simp only [category_eq]
  simp

/-- `op_call` below the top of the stack array. -/
theorem op_call_ok (s : Machine) (op : Nat) (hsp : s.stack_ptr < 15) :
    op_call s op = .ok { s with stack_ptr := s.stack_ptr + 1,
                                stack := upd s.stack (s.stack_ptr + 1) s.PC,
                                PC := NNN op } := by
  unfold op_call
  have h1 : (s.stack_ptr + 1) % 65536 = s.stack_ptr + 1 := by omega
  simp only [h1]
  rw [if_pos (by omega)]

/-- `op_ret` with the stack pointer inside the stack array. -/
theorem op_ret_ok (s : Machine) (op : Nat) (hsp : s.stack_ptr < 16) :
    op_ret s op = .ok { s with PC := s.stack s.stack_ptr,
                               stack_ptr := (s.stack_ptr + 65535) % 65536 } := by
  unfold op_ret
  rw [if_pos hsp]

/-- C8: call then return.  For a stack pointer below 15 and a 12-bit target `nnn`,
the call 2nnn completes with `PC = nnn`, the return 00EE executed next completes,
and afterwards `PC` and the stack pointer have the values they had before the
call, with registers, index register, timers, memory and framebuffer unchanged. -/
theorem call_ret_round_trip (env1 env2 : Env) (fuel1 fuel2 : Nat) (s : Machine) (nnn : Nat)
    (hsp : s.stack_ptr < 15) (hnnn : nnn < 4096) :
    ∃ t u, handle_opcode env1 fuel1 s (0x2000 + nnn) = .ok t ∧ t.PC = nnn ∧
      handle_opcode env2 fuel2 t 0x00EE = .ok u ∧
      u.PC = s.PC ∧ u.stack_ptr = s.stack_ptr ∧
      u.V = s.V ∧ u.I = s.I ∧ u.DT = s.DT ∧ u.ST = s.ST ∧ u.RAM = s.RAM ∧
      u.framebuffer = s.framebuffer := by
  have h1 : handle_opcode env1 fuel1 s (0x2000 + nnn) = _ :=
    (handle_2xxx _ _ _ _ (by omega)).trans (op_call_ok s (0x2000 + nnn) hsp)
  have h2 := (handle_00EE env2 fuel2 _).trans (op_ret_ok
    { s with stack_ptr := s.stack_ptr + 1,
             stack := upd s.stack (s.stack_ptr + 1) s.PC,
             PC := NNN (0x2000 + nnn) } 0x00EE (show s.stack_ptr + 1 < 16 by omega))
  refine ⟨_, _, h1, ?_, h2, ?_, ?_, ?_⟩
  · show NNN (0x2000 + nnn) = nnn
    rw [NNN_eq]; omega
  · exact upd_same _ _ _
  · show (s.stack_ptr + 1 + 65535) % 65536 = s.stack_ptr
    omega
  · exact ⟨rfl, rfl, rfl, rfl, rfl, rfl⟩

/-- C8 with two addresses stacked, `PC = 0x300`, calling 0x456. -/
theorem call_ret_round_trip_witness :
    (ex_stack.stack_ptr < 15 ∧ 0x456 < 4096) ∧
      ∃ t u, handle_opcode env_idle 0 ex_stack (0x2000 + 0x456) = .ok t ∧ t.PC = 0x456 ∧
        handle_opcode env_idle 0 t 0x00EE = .ok u ∧
        u.PC = ex_stack.PC ∧ u.stack_ptr = ex_stack.stack_ptr ∧
        u.V = ex_stack.V ∧ u.I = ex_stack.I ∧ u.DT = ex_stack.DT ∧ u.ST = ex_stack.ST ∧
        u.RAM = ex_stack.RAM ∧ u.framebuffer = ex_stack.framebuffer :=
  ⟨by decide, call_ret_round_trip env_idle env_idle 0 0 ex_stack 0x456 (by decide)
    (by decide)⟩

/-- C9, as the claim states it, fails: a return executed with nothing stacked
(stack pointer 0) raises no fault; it completes, loads `PC` from slot 0 and
leaves the stack pointer at 65535, outside the 16-entry stack. -/
theorem ret_on_empty_stack_completes :
    Machine.init.stack_ptr = 0 ∧ Machine.init.PC = 0x200 ∧
      ∃ t, handle_opcode env_idle 0 Machine.init 0x00EE = .ok t ∧
        t.stack_ptr = 65535 ∧ t.PC = 0 := by
  have h1 := (handle_00EE env_idle 0 Machine.init).trans
    (op_ret_ok Machine.init 0x00EE (by decide))
  exact ⟨rfl, rfl, _, h1, by decide, by decide⟩

/-- C9, amended: the handlers carry no stack guard.  A call executed with stack
pointer `sp ≤ 14` completes, leaves the stack pointer at `sp + 1 ≤ 15` and stores
the return address in slot `sp + 1`, changing no other slot; a return executed
with `1 ≤ sp ≤ 15` completes, reads slot `sp` and leaves `sp - 1`; a return
executed with `sp = 0` completes as well, reading slot 0 and wrapping the stack
pointer to 65535; and neither handler ever ends in an assertion failure. -/
theorem stack_without_guard (env : Env) (fuel : Nat) (s : Machine) (nnn : Nat)
    (hnnn : nnn < 4096) :
    (s.stack_ptr < 15 →
      ∃ t, handle_opcode env fuel s (0x2000 + nnn) = .ok t ∧
        t.stack_ptr = s.stack_ptr + 1 ∧ t.stack_ptr < 16 ∧
        t.stack (s.stack_ptr + 1) = s.PC ∧
        (∀ i, i ≠ s.stack_ptr + 1 → t.stack i = s.stack i) ∧ t.PC = nnn) ∧
    (0 < s.stack_ptr → s.stack_ptr < 16 →
      ∃ t, handle_opcode env fuel s 0x00EE = .ok t ∧
        t.PC = s.stack s.stack_ptr ∧ t.stack_ptr = s.stack_ptr - 1 ∧
        t.stack_ptr < 16 ∧ t.stack = s.stack) ∧
    (s.stack_ptr = 0 →
      ∃ t, handle_opcode env fuel s 0x00EE = .ok t ∧
        t.PC = s.stack 0 ∧ t.stack_ptr = 65535 ∧ t.stack = s.stack) ∧
    handle_opcode env fuel s (0x2000 + nnn) ≠ .error .assert_failed ∧
    handle_opcode env fuel s 0x00EE ≠ .error .assert_failed := by
  refine ⟨fun hsp => ?_, fun h0 hsp => ?_, fun h0 => ?_, ?_, ?_⟩
  · have h1 : handle_opcode env fuel s (0x2000 + nnn) = _ :=
      (handle_2xxx _ _ _ _ (by omega)).trans (op_call_ok s (0x2000 + nnn) hsp)
    refine ⟨_, h1, rfl, ?_, ?_, ?_, ?_⟩
    · show s.stack_ptr + 1 < 16
      omega
    · exact upd_same _ _ _
    · intro i hi
      exact upd_other _ _ _ _ hi
    · show NNN (0x2000 + nnn) = nnn
      rw [NNN_eq]; omega
  · have h1 := (handle_00EE env fuel s).trans (op_ret_ok s 0x00EE hsp)
    refine ⟨_, h1, rfl, ?_, ?_, rfl⟩
    · show (s.stack_ptr + 65535) % 65536 = s.stack_ptr - 1
      omega
    · show (s.stack_ptr + 65535) % 65536 < 16
      omega
  · have h1 := (handle_00EE env fuel s).trans (op_ret_ok s 0x00EE (by omega))
    refine ⟨_, h1, ?_, ?_, rfl⟩
    · show s.stack s.stack_ptr = s.stack 0
      rw [h0]
    · show (s.stack_ptr + 65535) % 65536 = 65535
      omega
  · rw [handle_2xxx _ _ _ _ (by omega)]
    unfold op_call
    simp only []
    split <;> simp
  · rw [handle_00EE]
    unfold op_ret
    split <;> simp

/-- C9 amended, on a machine with two addresses stacked. -/
theorem stack_without_guard_witness :
    (0x456 < 4096 ∧ ex_stack.stack_ptr < 15 ∧ 0 < ex_stack.stack_ptr) ∧
      (∃ t, handle_opcode env_idle 0 ex_stack (0x2000 + 0x456) = .ok t ∧
        t.stack_ptr = ex_stack.stack_ptr + 1 ∧ t.stack_ptr < 16 ∧
        t.stack (ex_stack.stack_ptr + 1) = ex_stack.PC ∧
        (∀ i, i ≠ ex_stack.stack_ptr + 1 → t.stack i = ex_stack.stack i) ∧ t.PC = 0x456) ∧
      (∃ t, handle_opcode env_idle 0 ex_stack 0x00EE = .ok t ∧
        t.PC = ex_stack.stack ex_stack.stack_ptr ∧
        t.stack_ptr = ex_stack.stack_ptr - 1 ∧ t.stack_ptr < 16 ∧
        t.stack = ex_stack.stack) :=
  have h := stack_without_guard env_idle 0 ex_stack 0x456 (by decide)
  ⟨by decide, h.1 (by decide), h.2.1 (by decide) (by decide)⟩

/-- A loop in the `Except` monad keeps whatever each pass keeps. -/
theorem foldlM_keeps {α : Type} (f : Machine → Nat → Except Trap Machine) (g : Machine → α)
    (hf : ∀ s i t, f s i = .ok t → g t = g s) :
    ∀ (l : List Nat) (s t : Machine), l.foldlM f s = .ok t → g t = g s := by
  intro l
  induction l with
  | nil =>
    intro s t h
    have : s = t := Except.ok.inj h
    rw [this]
  | cons a l ih =>
    intro s t h
    rw [List.foldlM_cons] at h
    cases hfa : f s a with
    | error e => rw [hfa] at h; cases h
    | ok s1 =>
      rw [hfa] at h
      exact (ih s1 t h).trans (hf s a s1 hfa)

theorem op_drw_clock (s t : Machine) (op : Nat) (h : op_drw s op = .ok t) :
    t.clock = s.clock := by
  unfold op_drw at h
  simp only [] at h
  cases hf : List.foldlM (drw_step ((s.setV 0xF 0).V (X op)) ((s.setV 0xF 0).V (Y op)))
      (s.setV 0xF 0) (List.range (N op)) with
  | error e => rw [hf] at h; cases h
  | ok s1 =>
    rw [hf] at h
    have ht : t = { s1 with screen_needs_update := true } := (Except.ok.inj h).symm
    have key := foldlM_keeps (drw_step ((s.setV 0xF 0).V (X op)) ((s.setV 0xF 0).V (Y op)))
      Machine.clock (fun a i b hab => by
        unfold drw_step at hab
        cases hr : a.readRAM (a.I + i) with
        | error e => rw [hr] at hab; cases hab
        | ok byte =>
          rw [hr] at hab
          have hb : b = drw_row byte _ _ i a := (Except.ok.inj hab).symm
          obtain ⟨⟨_, c2, c3, _, _, c6, _⟩, _⟩ := drw_cols_spec byte
            ((s.setV 0xF 0).V (X op)) ((s.setV 0xF 0).V (Y op)) i a 8 (by omega)
          rw [hb]
          unfold drw_row Machine.clock
          rw [c2, c3, c6]) _ _ _ hf
    rw [ht]
    exact key

theorem op_ld_vx_i_clock (s t : Machine) (op : Nat) (h : op_ld_vx_i s op = .ok t) :
    t.clock = s.clock := by
  unfold op_ld_vx_i at h
  exact foldlM_keeps ld_vx_i_step Machine.clock (fun a i b hab => by
    unfold ld_vx_i_step at hab
    cases hr : a.readRAM (a.I + i) with
    | error e => rw [hr] at hab; cases hab
    | ok byte =>
      rw [hr] at hab
      rw [← Except.ok.inj hab]
      rfl) _ _ _ h

theorem writeRAM_clock (s t : Machine) (a v : Nat) (h : s.writeRAM a v = .ok t) :
    t.clock = s.clock := by
  unfold Machine.writeRAM at h
  split at h
  · rw [← Except.ok.inj h]; rfl
  · cases h

theorem op_ld_b_vx_clock (s t : Machine) (op : Nat) (h : op_ld_b_vx s op = .ok t) :
    t.clock = s.clock := by
  unfold op_ld_b_vx at h
  simp only [] at h
  cases h1 : s.writeRAM s.I (s.V (X op) / 100) with
  | error e => rw [h1] at h; cases h
  | ok s1 =>
    rw [h1] at h
    simp only [] at h
    cases h2 : s1.writeRAM (s1.I + 1) (s1.V (X op) / 10 % 10) with
    | error e => rw [h2] at h; cases h
    | ok s2 =>
      rw [h2] at h
      simp only [] at h
      exact (writeRAM_clock _ _ _ _ h).trans
        ((writeRAM_clock _ _ _ _ h2).trans (writeRAM_clock _ _ _ _ h1))

theorem op_ld_i_vx_clock (s t : Machine) (op : Nat) (h : op_ld_i_vx s op = .ok t) :
    t.clock = s.clock := by
  unfold op_ld_i_vx at h
  simp only [] at h
  split at h
  · rw [← Except.ok.inj h]; rfl
  · cases h

theorem op_ld_vx_k_clock (env : Env) (fuel : Nat) (s t : Machine) (op : Nat)
    (h : op_ld_vx_k env fuel s op = .ok t) : t.clock = s.clock := by
  unfold op_ld_vx_k at h
  simp only [] at h
  split at h
  · rw [← Except.ok.inj h]; rfl
  · cases h

/-- Category 0 of the dispatch table. -/
theorem handle_0xxx (env : Env) (fuel : Nat) (s : Machine) (op : Nat)
    (h : op / 4096 % 16 = 0) : handle_opcode env fuel s op = op_0xxx_handler s op := by
  unfold handle_opcode
  simp only [category_eq, h]
  simp

/-- Category 1 of the dispatch table. -/
theorem handle_1xxx (env : Env) (fuel : Nat) (s : Machine) (op : Nat)
    (h : op / 4096 % 16 = 1) : handle_opcode env fuel s op = .ok (op_jp_addr s op) := by
  unfold handle_opcode
  simp only [category_eq, h]
  simp

/-- Category 3 of the dispatch table. -/
theorem handle_3xxx (env : Env) (fuel : Nat) (s : Machine) (op : Nat)
    (h : op / 4096 % 16 = 3) : handle_opcode env fuel s op = .ok (op_se_vx_byte s op) := by
  unfold handle_opcode
  simp only [category_eq, h]
  simp

/-- Category 4 of the dispatch table. -/
theorem handle_4xxx (env : Env) (fuel : Nat) (s : Machine) (op : Nat)
    (h : op / 4096 % 16 = 4) : handle_opcode env fuel s op = .ok (op_sne_vx_byte s op) := by
  unfold handle_opcode
  simp only [category_eq, h]
  simp

/-- Category 5 of the dispatch table. -/
theorem handle_5xxx (env : Env) (fuel : Nat) (s : Machine) (op : Nat)
    (h : op / 4096 % 16 = 5) : handle_opcode env fuel s op = .ok (op_se_vx_vy s op) := by
  unfold handle_opcode
  simp only [category_eq, h]
  simp

/-- Category 6 of the dispatch table. -/
theorem handle_6xxx (env : Env) (fuel : Nat) (s : Machine) (op : Nat)
    (h : op / 4096 % 16 = 6) : handle_opcode env fuel s op = .ok (op_ld_vx_byte s op) := by
  unfold handle_opcode
  simp only [category_eq, h]
  simp

/-- Category 7 of the dispatch table. -/
theorem handle_7xxx (env : Env) (fuel : Nat) (s : Machine) (op : Nat)
    (h : op / 4096 % 16 = 7) : handle_opcode env fuel s op = .ok (op_add_vx_byte s op) := by
  unfold handle_opcode
  simp only [category_eq, h]
  simp

/-- Category 9 of the dispatch table. -/
theorem handle_9xxx (env : Env) (fuel : Nat) (s : Machine) (op : Nat)
    (h : op / 4096 % 16 = 9) : handle_opcode env fuel s op = .ok (op_sne_vx_vy s op) := by
  unfold handle_opcode
  simp only [category_eq, h]
  simp

/-- Category A of the dispatch table. -/
theorem handle_Axxx (env : Env) (fuel : Nat) (s : Machine) (op : Nat)
    (h : op / 4096 % 16 = 10) : handle_opcode env fuel s op = .ok (op_ld_i_addr s op) := by
  unfold handle_opcode
  simp only [category_eq, h]
  simp

/-- Category B of the dispatch table. -/
theorem handle_Bxxx (env : Env) (fuel : Nat) (s : Machine) (op : Nat)
    (h : op / 4096 % 16 = 11) : handle_opcode env fuel s op = .ok (op_jp_v0_addr s op) := by
  unfold handle_opcode
  simp only [category_eq, h]
  simp

/-- Category C of the dispatch table. -/
theorem handle_Cxxx (env : Env) (fuel : Nat) (s : Machine) (op : Nat)
    (h : op / 4096 % 16 = 12) : handle_opcode env fuel s op = .ok (op_rnd env s op) := by
  unfold handle_opcode
  simp only [category_eq, h]
  simp

/-- Category E of the dispatch table. -/
theorem handle_Exxx (env : Env) (fuel : Nat) (s : Machine) (op : Nat)
    (h : op / 4096 % 16 = 14) : handle_opcode env fuel s op = op_Exxx_handler env s op := by
  unfold handle_opcode
  simp only [category_eq, h]
  simp

/-- Category F of the dispatch table. -/
theorem handle_Fxxx (env : Env) (fuel : Nat) (s : Machine) (op : Nat)
    (h : op / 4096 % 16 = 15) : handle_opcode env fuel s op = op_Fxxx_handler env fuel s op := by
  unfold handle_opcode
  simp only [category_eq, h]
  simp

theorem op_8xxx_handler_clock (s t : Machine) (op : Nat)
    (h : op_8xxx_handler s op = .ok t) : t.clock = s.clock := by
  unfold op_8xxx_handler at h
  simp only [] at h
  split_ifs at h <;> (rw [← Except.ok.inj h]; rfl)

theorem op_Fxxx_handler_keeps (env : Env) (fuel : Nat) (s t : Machine) (op : Nat)
    (h : op_Fxxx_handler env fuel s op = .ok t) :
    (op % 256 ≠ 0x15 → t.DT = s.DT) ∧ (op % 256 ≠ 0x18 → t.ST = s.ST) ∧ t.PC = s.PC := by
  unfold op_Fxxx_handler at h
  simp only [and_FF] at h
  have clk : ∀ {a b : Machine}, b.clock = a.clock →
      (op % 256 ≠ 0x15 → b.DT = a.DT) ∧ (op % 256 ≠ 0x18 → b.ST = a.ST) ∧ b.PC = a.PC := by
    intro a b hab
    unfold Machine.clock at hab
    simp only [Prod.mk.injEq] at hab
    exact ⟨fun _ => hab.1, fun _ => hab.2.1, hab.2.2⟩
  split_ifs at h with h1 h2 h3 h4 h5 h6 h7 h8 h9
  · rw [← Except.ok.inj h]; exact clk rfl
  · exact clk (op_ld_vx_k_clock _ _ _ _ _ h)
  · rw [← Except.ok.inj h]; exact ⟨fun hne => absurd h3 hne, fun _ => rfl, rfl⟩
  · rw [← Except.ok.inj h]; exact ⟨fun _ => rfl, fun hne => absurd h4 hne, rfl⟩
  · rw [← Except.ok.inj h]; exact clk rfl
  · rw [← Except.ok.inj h]; exact clk rfl
  · exact clk (op_ld_b_vx_clock _ _ _ h)
  · exact clk (op_ld_i_vx_clock _ _ _ h)
  · exact clk (op_ld_vx_i_clock _ _ _ h)

theorem op_Exxx_handler_timers (env : Env) (s t : Machine) (op : Nat)
    (h : op_Exxx_handler env s op = .ok t) : t.DT = s.DT ∧ t.ST = s.ST := by
  unfold op_Exxx_handler at h
  simp only [] at h
  split_ifs at h
  · unfold op_skp at h
    simp only [] at h
    split at h
    · rw [← Except.ok.inj h]; split <;> exact ⟨rfl, rfl⟩
    · cases h
  · unfold op_sknp at h
    simp only [] at h
    split at h
    · rw [← Except.ok.inj h]; split <;> exact ⟨rfl, rfl⟩
    · cases h

theorem op_0xxx_handler_keeps (s t : Machine) (op : Nat)
    (h : op_0xxx_handler s op = .ok t) :
    t.DT = s.DT ∧ t.ST = s.ST ∧ (op ≠ 0x00EE → t.PC = s.PC) := by
  unfold op_0xxx_handler at h
  split_ifs at h with h1 h2
  · rw [← Except.ok.inj h]; exact ⟨rfl, rfl, fun _ => rfl⟩
  · unfold op_ret at h
    split at h
    · rw [← Except.ok.inj h]; exact ⟨rfl, rfl, fun hne => absurd h2 hne⟩
    · cases h
  · rw [← Except.ok.inj h]; exact ⟨rfl, rfl, fun _ => rfl⟩

/-- What any instruction that completes leaves alone: the delay timer unless it
is Fx15, the sound timer unless it is Fx18, and the program counter when its
category is none of the jump, call, return and skip categories. -/
theorem handle_opcode_keeps (env : Env) (fuel : Nat) (s t : Machine) (op : Nat)
    (h : handle_opcode env fuel s op = .ok t) :
    (¬ (op / 4096 % 16 = 15 ∧ op % 256 = 0x15) → t.DT = s.DT) ∧
    (¬ (op / 4096 % 16 = 15 ∧ op % 256 = 0x18) → t.ST = s.ST) ∧
    ((op / 4096 % 16 = 0 ∧ op ≠ 0x00EE) ∨ op / 4096 % 16 = 6 ∨ op / 4096 % 16 = 7 ∨
      op / 4096 % 16 = 8 ∨ op / 4096 % 16 = 10 ∨ op / 4096 % 16 = 12 ∨
      op / 4096 % 16 = 13 ∨ op / 4096 % 16 = 15 → t.PC = s.PC) := by
  have clk : ∀ {a b : Machine}, b.clock = a.clock →
      b.DT = a.DT ∧ b.ST = a.ST ∧ b.PC = a.PC := by
    intro a b hab
    unfold Machine.clock at hab
    simp only [Prod.mk.injEq] at hab
    exact hab
  have hcases : op / 4096 % 16 = 0 ∨ op / 4096 % 16 = 1 ∨ op / 4096 % 16 = 2 ∨
      op / 4096 % 16 = 3 ∨ op / 4096 % 16 = 4 ∨ op / 4096 % 16 = 5 ∨
      op / 4096 % 16 = 6 ∨ op / 4096 % 16 = 7 ∨ op / 4096 % 16 = 8 ∨
      op / 4096 % 16 = 9 ∨ op / 4096 % 16 = 10 ∨ op / 4096 % 16 = 11 ∨
      op / 4096 % 16 = 12 ∨ op / 4096 % 16 = 13 ∨ op / 4096 % 16 = 14 ∨
      op / 4096 % 16 = 15 := by omega
  rcases hcases with c | c | c | c | c | c | c | c | c | c | c | c | c | c | c | c
  · rw [handle_0xxx _ _ _ _ c] at h
    obtain ⟨a, b, d⟩ := op_0xxx_handler_keeps _ _ _ h
    exact ⟨fun _ => a, fun _ => b, fun hc => d (by omega)⟩
  · rw [handle_1xxx _ _ _ _ c] at h
    rw [← Except.ok.inj h]; exact ⟨fun _ => rfl, fun _ => rfl, fun hc => by omega⟩
  · rw [handle_2xxx _ _ _ _ c] at h
    unfold op_call at h
    simp only [] at h
    split at h
    · rw [← Except.ok.inj h]; exact ⟨fun _ => rfl, fun _ => rfl, fun hc => by omega⟩
    · cases h
  · rw [handle_3xxx _ _ _ _ c] at h
    rw [← Except.ok.inj h]; unfold op_se_vx_byte
    simp only []
    split <;> exact ⟨fun _ => rfl, fun _ => rfl, fun hc => by omega⟩
  · rw [handle_4xxx _ _ _ _ c] at h
    rw [← Except.ok.inj h]; unfold op_sne_vx_byte
    simp only []
    split <;> exact ⟨fun _ => rfl, fun _ => rfl, fun hc => by omega⟩
  · rw [handle_5xxx _ _ _ _ c] at h
    rw [← Except.ok.inj h]; unfold op_se_vx_vy
    simp only []
    split <;> exact ⟨fun _ => rfl, fun _ => rfl, fun hc => by omega⟩
  · rw [handle_6xxx _ _ _ _ c] at h
    rw [← Except.ok.inj h]; exact ⟨fun _ => rfl, fun _ => rfl, fun _ => rfl⟩
  · rw [handle_7xxx _ _ _ _ c] at h
    rw [← Except.ok.inj h]; exact ⟨fun _ => rfl, fun _ => rfl, fun _ => rfl⟩
  · rw [handle_8xxx _ _ _ _ c] at h
    obtain ⟨a, b, d⟩ := clk (op_8xxx_handler_clock _ _ _ h)
    exact ⟨fun _ => a, fun _ => b, fun _ => d⟩
  · rw [handle_9xxx _ _ _ _ c] at h
    rw [← Except.ok.inj h]; unfold op_sne_vx_vy
    simp only []
    split <;> exact ⟨fun _ => rfl, fun _ => rfl, fun hc => by omega⟩
  · rw [handle_Axxx _ _ _ _ c] at h
    rw [← Except.ok.inj h]; exact ⟨fun _ => rfl, fun _ => rfl, fun _ => rfl⟩
  · rw [handle_Bxxx _ _ _ _ c] at h
    rw [← Except.ok.inj h]; exact ⟨fun _ => rfl, fun _ => rfl, fun hc => by omega⟩
  · rw [handle_Cxxx _ _ _ _ c] at h
    rw [← Except.ok.inj h]; exact ⟨fun _ => rfl, fun _ => rfl, fun _ => rfl⟩
  · rw [handle_Dxxx _ _ _ _ c] at h
    obtain ⟨a, b, d⟩ := clk (op_drw_clock _ _ _ h)
    exact ⟨fun _ => a, fun _ => b, fun _ => d⟩
  · rw [handle_Exxx _ _ _ _ c] at h
    obtain ⟨a, b⟩ := op_Exxx_handler_timers _ _ _ _ h
    exact ⟨fun _ => a, fun _ => b, fun hc => by omega⟩
  · rw [handle_Fxxx _ _ _ _ c] at h
    obtain ⟨a, b, d⟩ := op_Fxxx_handler_keeps _ _ _ _ _ h
    exact ⟨fun hn => a (fun h15 => hn ⟨c, h15⟩), fun hn => b (fun h18 => hn ⟨c, h18⟩),
      fun _ => d⟩

theorem tick_timers_DT (s : Machine) : (tick_timers s).DT = s.DT - 1 := by
  unfold tick_timers
  by_cases h : s.DT > 0
  · simp only [if_pos h]
    split <;> rfl
  · simp only [if_neg h]
    have : s.DT = s.DT - 1 := by omega
    split <;> exact this

theorem tick_timers_ST (s : Machine) : (tick_timers s).ST = s.ST - 1 := by
  unfold tick_timers
  by_cases h : s.DT > 0
  · simp only [if_pos h]
    by_cases h2 : s.ST > 0
    · rw [if_pos h2]
    · rw [if_neg h2]
      show s.ST = s.ST - 1
      omega
  · simp only [if_neg h]
    by_cases h2 : s.ST > 0
    · rw [if_pos h2]
    · rw [if_neg h2]
      omega

theorem iterate_tick_timers (k : Nat) (s : Machine) :
    (Nat.iterate tick_timers k s).DT = s.DT - k ∧
      (Nat.iterate tick_timers k s).ST = s.ST - k := by
  induction k with
  | zero => exact ⟨rfl, rfl⟩
  | succ k ih =>
    rw [Function.iterate_succ_apply', tick_timers_DT, tick_timers_ST, ih.1, ih.2]
    omega

/-- C7: the timer tick at the head of the frame loop.  For each of `DT` and `ST`
a tick maps 0 to 0 and `t > 0` to `t - 1`; `k` ticks in a row leave
`max (t - k) 0`; and an engine step that completes leaves `DT` as it was unless
the instruction is Fx15, and `ST` as it was unless it is Fx18, so a timer at 0
stays 0 until one of these sets it. -/
theorem timers_clamp_at_zero :
    (∀ s : Machine, (s.DT = 0 → (tick_timers s).DT = 0) ∧
      (0 < s.DT → (tick_timers s).DT = s.DT - 1) ∧
      (s.ST = 0 → (tick_timers s).ST = 0) ∧
      (0 < s.ST → (tick_timers s).ST = s.ST - 1)) ∧
    (∀ (s : Machine) (k : Nat),
      ((Nat.iterate tick_timers k s).DT : Int) = max ((s.DT : Int) - (k : Int)) 0 ∧
      ((Nat.iterate tick_timers k s).ST : Int) = max ((s.ST : Int) - (k : Int)) 0) ∧
    (∀ (env : Env) (fuel : Nat) (s t : Machine), cpu_step env fuel s = .ok t →
      (¬ (fetch s / 4096 % 16 = 15 ∧ fetch s % 256 = 0x15) → t.DT = s.DT) ∧
      (¬ (fetch s / 4096 % 16 = 15 ∧ fetch s % 256 = 0x18) → t.ST = s.ST)) := by
  refine ⟨fun s => ⟨fun h => ?_, fun _ => tick_timers_DT s, fun h => ?_,
    fun _ => tick_timers_ST s⟩, fun s k => ?_, fun env fuel s t h => ?_⟩
  · rw [tick_timers_DT, h]
  · rw [tick_timers_ST, h]
  · obtain ⟨h1, h2⟩ := iterate_tick_timers k s
    rw [h1, h2]
    omega
  · unfold cpu_step at h
    split at h
    · cases h
    · obtain ⟨a, b, _⟩ := handle_opcode_keeps _ _ _ _ _ h
      exact ⟨a, b⟩

/-- C7 on a machine with both timers at 3: five ticks leave both at 0, and the
step executing 0x6005 leaves them at 3. -/
theorem timers_clamp_at_zero_witness :
    ((Nat.iterate tick_timers 5 ex_timers).DT : Int) = max ((ex_timers.DT : Int) - (5 : Nat)) 0 ∧
      ∃ t, cpu_step env_idle 0 ex_timers = .ok t ∧ t.DT = ex_timers.DT ∧
        t.ST = ex_timers.ST := by
  refine ⟨(timers_clamp_at_zero.2.1 ex_timers 5).1, ?_⟩
  have hs : cpu_step env_idle 0 ex_timers
      = .ok (op_ld_vx_byte { ex_timers with PC := 0x202 } 0x6005) := by
    unfold cpu_step
    rw [if_neg (by decide)]
    have hf : fetch ex_timers = 0x6005 := by decide
    simp only [hf]
    rw [handle_6xxx _ _ _ _ (by decide)]
    rfl
  obtain ⟨a, b⟩ := timers_clamp_at_zero.2.2 env_idle 0 ex_timers _ hs
  exact ⟨_, hs, a (by decide), b (by decide)⟩

/-- Entry 0x07 of the switch in `op_Fxxx_handler`. -/
theorem op_Fxxx_handler_07 (env : Env) (fuel : Nat) (s : Machine) (op : Nat)
    (h : op % 256 = 0x07) : op_Fxxx_handler env fuel s op = .ok (op_ld_vx_dt s op) := by
  unfold op_Fxxx_handler
  simp only [and_FF, h]
  simp

/-- Entry 0x0A of the switch in `op_Fxxx_handler`. -/
theorem op_Fxxx_handler_0A (env : Env) (fuel : Nat) (s : Machine) (op : Nat)
    (h : op % 256 = 0x0A) : op_Fxxx_handler env fuel s op = op_ld_vx_k env fuel s op := by
  unfold op_Fxxx_handler
  simp only [and_FF, h]
  simp

/-- Entry 0x15 of the switch in `op_Fxxx_handler`. -/
theorem op_Fxxx_handler_15 (env : Env) (fuel : Nat) (s : Machine) (op : Nat)
    (h : op % 256 = 0x15) : op_Fxxx_handler env fuel s op = .ok (op_ld_dt_vx s op) := by
  unfold op_Fxxx_handler
  simp only [and_FF, h]
  simp

/-- Entry 0x18 of the switch in `op_Fxxx_handler`. -/
theorem op_Fxxx_handler_18 (env : Env) (fuel : Nat) (s : Machine) (op : Nat)
    (h : op % 256 = 0x18) : op_Fxxx_handler env fuel s op = .ok (op_ld_st_vx s op) := by
  unfold op_Fxxx_handler
  simp only [and_FF, h]
  simp

/-- Entry 0x1E of the switch in `op_Fxxx_handler`. -/
theorem op_Fxxx_handler_1E (env : Env) (fuel : Nat) (s : Machine) (op : Nat)
    (h : op % 256 = 0x1E) : op_Fxxx_handler env fuel s op = .ok (op_add_i_vx s op) := by
  unfold op_Fxxx_handler
  simp only [and_FF, h]
  simp

/-- Entry 0x29 of the switch in `op_Fxxx_handler`. -/
theorem op_Fxxx_handler_29 (env : Env) (fuel : Nat) (s : Machine) (op : Nat)
    (h : op % 256 = 0x29) : op_Fxxx_handler env fuel s op = .ok (op_ld_f_vx s op) := by
  unfold op_Fxxx_handler
  simp only [and_FF, h]
  simp

/-- Entry 0x33 of the switch in `op_Fxxx_handler`. -/
theorem op_Fxxx_handler_33 (env : Env) (fuel : Nat) (s : Machine) (op : Nat)
    (h : op % 256 = 0x33) : op_Fxxx_handler env fuel s op = op_ld_b_vx s op := by
  unfold op_Fxxx_handler
  simp only [and_FF, h]
  simp

/-- Entry 0x55 of the switch in `op_Fxxx_handler`. -/
theorem op_Fxxx_handler_55 (env : Env) (fuel : Nat) (s : Machine) (op : Nat)
    (h : op % 256 = 0x55) : op_Fxxx_handler env fuel s op = op_ld_i_vx s op := by
  unfold op_Fxxx_handler
  simp only [and_FF, h]
  simp

/-- Entry 0x65 of the switch in `op_Fxxx_handler`. -/
theorem op_Fxxx_handler_65 (env : Env) (fuel : Nat) (s : Machine) (op : Nat)
    (h : op % 256 = 0x65) : op_Fxxx_handler env fuel s op = op_ld_vx_i s op := by
  unfold op_Fxxx_handler
  simp only [and_FF, h]
  simp

/-- The loop of `op_ld_vx_i` completes when the bytes read lie in RAM. -/
theorem ld_vx_i_loop_ok (s : Machine) (k : Nat) (h : s.I + k ≤ RAM_SIZE) :
    ∃ t, (List.range k).foldlM ld_vx_i_step s = .ok t ∧ t.I = s.I := by
  induction k with
  | zero => exact ⟨s, rfl, rfl⟩
  | succ k ih =>
    obtain ⟨t, ht, hI⟩ := ih (by omega)
    refine ⟨t.setV k (t.RAM (t.I + k)), ?_, hI⟩
    rw [foldlM_range_succ, ht]
    simp only []
    unfold ld_vx_i_step Machine.readRAM
    rw [if_pos (by rw [hI]; omega)]

/-- The three stores of `op_ld_b_vx` complete when `I + 2` lies in RAM. -/
theorem op_ld_b_vx_ok (s : Machine) (op : Nat) (h : s.I + 2 < RAM_SIZE) :
    ∃ t, op_ld_b_vx s op = .ok t := by
  unfold op_ld_b_vx Machine.writeRAM
  simp only []
  rw [if_pos (by omega)]
  simp only []
  rw [if_pos (by omega)]
  simp only []
  rw [if_pos (by omega)]
  exact ⟨_, rfl⟩

/-- Every plain instruction whose operands are ready is executed to completion. -/
theorem handle_opcode_completes (env : Env) (fuel : Nat) (s : Machine) (op : Nat)
    (hp : plain_instruction op) (hr : operands_ready env fuel s op) :
    ∃ t, handle_opcode env fuel s op = .ok t := by
  obtain ⟨rD, r33, r55, r0A⟩ := hr
  rcases hp with ⟨c, hne⟩ | c | c | ⟨c, hn⟩ | c | c | c | ⟨c, hb⟩
  · rw [handle_0xxx _ _ _ _ c]
    unfold op_0xxx_handler
    rw [if_neg hne]
    split <;> exact ⟨_, rfl⟩
  · rw [handle_6xxx _ _ _ _ c]; exact ⟨_, rfl⟩
  · rw [handle_7xxx _ _ _ _ c]; exact ⟨_, rfl⟩
  · rw [handle_8xxx _ _ _ _ c]
    unfold op_8xxx_handler
    simp only [and_0F]
    split_ifs <;> first
      | exact ⟨_, rfl⟩
      | (exfalso; omega)
  · rw [handle_Axxx _ _ _ _ c]; exact ⟨_, rfl⟩
  · rw [handle_Cxxx _ _ _ _ c]; exact ⟨_, rfl⟩
  · rw [handle_Dxxx _ _ _ _ c]
    obtain ⟨t, ht, _⟩ := op_drw_spec s op (by rw [N_eq]; exact rD c)
    exact ⟨t, ht⟩
  · rw [handle_Fxxx _ _ _ _ c]
    rcases hb with h | h | h | h | h | h | h | h | h
    · rw [op_Fxxx_handler_07 _ _ _ _ h]; exact ⟨_, rfl⟩
    · rw [op_Fxxx_handler_0A _ _ _ _ h]
      obtain ⟨key, hk⟩ := r0A c h
      unfold op_ld_vx_k
      simp only [hk]
      exact ⟨_, rfl⟩
    · rw [op_Fxxx_handler_15 _ _ _ _ h]; exact ⟨_, rfl⟩
    · rw [op_Fxxx_handler_18 _ _ _ _ h]; exact ⟨_, rfl⟩
    · rw [op_Fxxx_handler_1E _ _ _ _ h]; exact ⟨_, rfl⟩
    · rw [op_Fxxx_handler_29 _ _ _ _ h]; exact ⟨_, rfl⟩
    · rw [op_Fxxx_handler_33 _ _ _ _ h]
      exact op_ld_b_vx_ok s op (r33 c h)
    · rw [op_Fxxx_handler_55 _ _ _ _ h]
      unfold op_ld_i_vx
      simp only [X_eq]
      rw [if_pos (r55 c (Or.inl h))]
      exact ⟨_, rfl⟩
    · rw [op_Fxxx_handler_65 _ _ _ _ h]
      unfold op_ld_vx_i
      simp only [X_eq]
      obtain ⟨t, ht, _⟩ := ld_vx_i_loop_ok s (op / 256 % 16 + 1)
        (by have := r55 c (Or.inr h); omega)
      exact ⟨t, ht⟩

/-- C10: program-counter advance.  One engine step on an instruction at address
`a = PC` that passes the bounds check: a skip 3xkk, 4xkk, 5xy0, 9xy0 completes
and changes nothing but `PC`, which becomes `a + 4` when its condition holds and
`a + 2` when it does not; a jump 1nnn completes and changes nothing but `PC`,
which becomes `nnn`; every plain instruction (none of jump, call, return, skip)
whose operands are ready completes with `PC = a + 2`; and whenever a step on a
word of one of the plain categories completes at all, it leaves `PC = a + 2`. -/
theorem step_advances_pc (env : Env) (fuel : Nat) (s : Machine) (x y kk nnn : Nat)
    (hpc : s.PC + 1 < PROGRAM_REGION_END) (hx : x < 16) (hy : y < 16) (hkk : kk < 256)
    (hnnn : nnn < 4096) :
    (fetch s = 0x3000 + 256 * x + kk →
      cpu_step env fuel s
        = .ok { s with PC := if s.V x = kk then s.PC + 4 else s.PC + 2 }) ∧
    (fetch s = 0x4000 + 256 * x + kk →
      cpu_step env fuel s
        = .ok { s with PC := if s.V x ≠ kk then s.PC + 4 else s.PC + 2 }) ∧
    (fetch s = 0x5000 + 256 * x + 16 * y →
      cpu_step env fuel s
        = .ok { s with PC := if s.V x = s.V y then s.PC + 4 else s.PC + 2 }) ∧
    (fetch s = 0x9000 + 256 * x + 16 * y →
      cpu_step env fuel s
        = .ok { s with PC := if s.V x ≠ s.V y then s.PC + 4 else s.PC + 2 }) ∧
    (fetch s = 0x1000 + nnn → cpu_step env fuel s = .ok { s with PC := nnn }) ∧
    (plain_instruction (fetch s) → operands_ready env fuel s (fetch s) →
      ∃ t, cpu_step env fuel s = .ok t ∧ t.PC = s.PC + 2) ∧
    (∀ t, cpu_step env fuel s = .ok t →
      ((fetch s / 4096 % 16 = 0x0 ∧ fetch s ≠ 0x00EE) ∨ fetch s / 4096 % 16 = 0x6 ∨
        fetch s / 4096 % 16 = 0x7 ∨ fetch s / 4096 % 16 = 0x8 ∨
        fetch s / 4096 % 16 = 0xA ∨ fetch s / 4096 % 16 = 0xC ∨
        fetch s / 4096 % 16 = 0xD ∨ fetch s / 4096 % 16 = 0xF) →
      t.PC = s.PC + 2) := by
  have hstep : cpu_step env fuel s
      = handle_opcode env fuel { s with PC := s.PC + 2 } (fetch s) := by
    unfold cpu_step
    rw [if_neg (by simp only [PROGRAM_REGION_END] at hpc ⊢; omega)]
    have : (s.PC + 2) % 65536 = s.PC + 2 := by
      simp only [PROGRAM_REGION_END] at hpc; omega
    simp only [this]
  have h4 : (s.PC + 2 + 2) % 65536 = s.PC + 4 := by
    simp only [PROGRAM_REGION_END] at hpc; omega
  refine ⟨fun h => ?_, fun h => ?_, fun h => ?_, fun h => ?_, fun h => ?_, fun hp hr => ?_,
    fun t ht hc => ?_⟩
  · have hX : X (fetch s) = x := by rw [h, X_eq]; omega
    have hK : KK (fetch s) = kk := by rw [h, KK_eq]; omega
    rw [hstep, handle_3xxx _ _ _ _ (by rw [h]; omega)]
    unfold op_se_vx_byte
    simp only [hX, hK, h4]
    split <;> rfl
  · have hX : X (fetch s) = x := by rw [h, X_eq]; omega
    have hK : KK (fetch s) = kk := by rw [h, KK_eq]; omega
    rw [hstep, handle_4xxx _ _ _ _ (by rw [h]; omega)]
    unfold op_sne_vx_byte
    simp only [hX, hK, h4]
    split <;> rfl
  · have hX : X (fetch s) = x := by rw [h, X_eq]; omega
    have hY : Y (fetch s) = y := by rw [h, Y_eq]; omega
    rw [hstep, handle_5xxx _ _ _ _ (by rw [h]; omega)]
    unfold op_se_vx_vy
    simp only [hX, hY, h4]
    split <;> rfl
  · have hX : X (fetch s) = x := by rw [h, X_eq]; omega
    have hY : Y (fetch s) = y := by rw [h, Y_eq]; omega
    rw [hstep, handle_9xxx _ _ _ _ (by rw [h]; omega)]
    unfold op_sne_vx_vy
    simp only [hX, hY, h4]
    split <;> rfl
  · have hN : NNN (fetch s) = nnn := by rw [h, NNN_eq]; omega
    rw [hstep, handle_1xxx _ _ _ _ (by rw [h]; omega)]
    unfold op_jp_addr
    simp only [hN]
  · obtain ⟨t, ht⟩ := handle_opcode_completes env fuel { s with PC := s.PC + 2 } (fetch s)
      hp hr
    refine ⟨t, hstep.trans ht, ?_⟩
    have hk := (handle_opcode_keeps _ _ _ _ _ ht).2.2
    unfold plain_instruction at hp
    exact hk (by omega)
  · rw [hstep] at ht
    exact (handle_opcode_keeps _ _ _ _ _ ht).2.2 hc

/-- C10 on the word 0x3107 at address 0x200 with `V1 = 7`: the skip is taken and
`PC` becomes 0x204. -/
theorem step_advances_pc_witness :
    (ex_skip.PC + 1 < PROGRAM_REGION_END ∧ 1 < 16 ∧ 0 < 16 ∧ 7 < 256 ∧ 0 < 4096 ∧
        fetch ex_skip = 0x3000 + 256 * 1 + 7) ∧
      cpu_step env_idle 0 ex_skip
        = .ok { ex_skip with PC := if ex_skip.V 1 = 7 then ex_skip.PC + 4
                                   else ex_skip.PC + 2 } :=
  ⟨by decide, (step_advances_pc env_idle 0 ex_skip 1 0 7 0 (by decide) (by decide)
    (by decide) (by decide) (by decide)).1 (by decide)⟩

/-- The instruction word as arithmetic on the two bytes. -/
theorem fetch_eq (s : Machine) (h : s.RAM (s.PC + 1) < 256) :
    fetch s = (s.RAM s.PC * 256 + s.RAM (s.PC + 1)) % 65536 := by
  unfold fetch
  rw [Nat.shiftLeft_eq, Nat.mul_comm (s.RAM s.PC) (2 ^ 8),
    ← Nat.mul_add_lt_is_or (show s.RAM (s.PC + 1) < 2 ^ 8 from h)]

/-- Two engine steps, unrolled. -/
theorem cpu_steps_two (envs : Nat → Env) (fuel : Nat) (s s1 s2 : Machine)
    (h1 : cpu_step (envs 0) fuel s = .ok s1) (h2 : cpu_step (envs 1) fuel s1 = .ok s2) :
    cpu_steps envs fuel 2 s = .ok s2 := by
  show (match (match cpu_steps envs fuel 0 s with
      | .ok a => cpu_step (envs 0) fuel a
      | .error e => .error e) with
    | .ok b => cpu_step (envs 1) fuel b
    | .error e => .error e) = .ok s2
  show (match (cpu_step (envs 0) fuel s) with
    | .ok b => cpu_step (envs 1) fuel b
    | .error e => .error e) = .ok s2
  rw [h1]
  exact h2

/-- A step that passes the bounds check dispatches the fetched word with `PC + 2`. -/
theorem cpu_step_eq (env : Env) (fuel : Nat) (s : Machine)
    (hpc : s.PC + 1 < PROGRAM_REGION_END) :
    cpu_step env fuel s = handle_opcode env fuel { s with PC := s.PC + 2 } (fetch s) := by
  unfold cpu_step
  rw [if_neg (by simp only [PROGRAM_REGION_END] at hpc ⊢; omega)]
  have : (s.PC + 2) % 65536 = s.PC + 2 := by
    simp only [PROGRAM_REGION_END] at hpc; omega
  simp only [this]

/-- C11: load-immediate then add-immediate.  For `x` in 0..14 and bytes `kk`,
`jj`, with the bytes `0x60 + x, kk, 0x70 + x, jj` at 0x200..0x203 and
`PC = 0x200`, two engine steps complete and leave `Vx = (kk + jj) mod 256` and
`PC = 0x204`; `VF`, every register other than `Vx`, the index register, the
timers, the stack, the memory and the framebuffer are unchanged. -/
theorem ld_then_add_immediate (envs : Nat → Env) (fuel : Nat) (s : Machine) (x kk jj : Nat)
    (hx : x < 15) (hkk : kk < 256) (hjj : jj < 256) (hpc : s.PC = 0x200)
    (h0 : s.RAM 0x200 = 0x60 + x) (h1 : s.RAM 0x201 = kk)
    (h2 : s.RAM 0x202 = 0x70 + x) (h3 : s.RAM 0x203 = jj) :
    ∃ t, cpu_steps envs fuel 2 s = .ok t ∧
      t.V x = (kk + jj) % 256 ∧ t.PC = 0x204 ∧ t.V 0xF = s.V 0xF ∧
      (∀ i, i ≠ x → t.V i = s.V i) ∧ t.I = s.I ∧ t.DT = s.DT ∧ t.ST = s.ST ∧
      t.stack = s.stack ∧ t.stack_ptr = s.stack_ptr ∧ t.RAM = s.RAM ∧
      t.framebuffer = s.framebuffer := by
  have f1 : fetch s = 0x6000 + 256 * x + kk := by
    rw [fetch_eq s (by rw [hpc, h1]; exact hkk), hpc, h0, h1]; omega
  have e1 : cpu_step (envs 0) fuel s
      = .ok (op_ld_vx_byte { s with PC := 0x202 } (0x6000 + 256 * x + kk)) := by
    rw [cpu_step_eq _ _ _ (by rw [hpc]; decide), f1, hpc,
      handle_6xxx _ _ _ _ (by omega)]
  have f2 : fetch (op_ld_vx_byte { s with PC := 0x202 } (0x6000 + 256 * x + kk))
      = 0x7000 + 256 * x + jj := by
    rw [fetch_eq _ (by show s.RAM (0x202 + 1) < 256; rw [h3]; exact hjj)]
    show (s.RAM 0x202 * 256 + s.RAM (0x202 + 1)) % 65536 = _
    rw [h2, h3]; omega
  have e2 : cpu_step (envs 1) fuel
        (op_ld_vx_byte { s with PC := 0x202 } (0x6000 + 256 * x + kk))
      = .ok (op_add_vx_byte
          { op_ld_vx_byte { s with PC := 0x202 } (0x6000 + 256 * x + kk) with PC := 0x204 }
          (0x7000 + 256 * x + jj)) := by
    rw [cpu_step_eq _ _ _ (by show 0x202 + 1 < PROGRAM_REGION_END; decide), f2,
      handle_7xxx _ _ _ _ (by omega)]
    rfl
  have hX1 : X (0x6000 + 256 * x + kk) = x := by rw [X_eq]; omega
  have hK1 : KK (0x6000 + 256 * x + kk) = kk := by rw [KK_eq]; omega
  have hX2 : X (0x7000 + 256 * x + jj) = x := by rw [X_eq]; omega
  have hK2 : KK (0x7000 + 256 * x + jj) = jj := by rw [KK_eq]; omega
  refine ⟨_, cpu_steps_two envs fuel s _ _ e1 e2, ?_, rfl, ?_, ?_, rfl, rfl, rfl, rfl, rfl,
    rfl, rfl⟩
  · simp only [op_add_vx_byte, op_ld_vx_byte, Machine.setV, hX1, hK1, hX2, hK2, upd_same]
  · have hF : (15 : Nat) ≠ x := by omega
    simp only [op_add_vx_byte, op_ld_vx_byte, Machine.setV, hX1, hK1, hX2, hK2,
      upd_other _ _ _ _ hF]
  · intro i hi
    simp only [op_add_vx_byte, op_ld_vx_byte, Machine.setV, hX1, hK1, hX2, hK2,
      upd_other _ _ _ _ hi]

/-- C11 on the image `[0x60, 0x05, 0x70, 0x03]`: `V0` becomes 8. -/
theorem ld_then_add_immediate_witness :
    (0 < 15 ∧ 5 < 256 ∧ 3 < 256 ∧ ex_ld_add.PC = 0x200 ∧ ex_ld_add.RAM 0x200 = 0x60 + 0 ∧
        ex_ld_add.RAM 0x201 = 5 ∧ ex_ld_add.RAM 0x202 = 0x70 + 0 ∧ ex_ld_add.RAM 0x203 = 3) ∧
      ∃ t, cpu_steps (fun _ => env_idle) 0 2 ex_ld_add = .ok t ∧ t.V 0 = 8 ∧ t.PC = 0x204 ∧
        t.V 0xF = ex_ld_add.V 0xF := by
  refine ⟨by decide, ?_⟩
  obtain ⟨t, ht, h1, h2, h3, _⟩ :=
    ld_then_add_immediate (fun _ => env_idle) 0 ex_ld_add 0 5 3 (by decide) (by decide)
      (by decide) (by decide) (by decide) (by decide) (by decide) (by decide)
  exact ⟨t, ht, h1, h2, h3⟩

/-- C12, as the claim states it, fails: from the initialised machine with
`I = 0x050`, `PC = 0x200` and the image `[0xA2, 0x50, 0xD0, 0x05]`, two engine
steps complete with `I = 0x250` and the cell at row 0, column 0 off, although
the most significant bit of the first glyph row 0xF0 is 1. -/
theorem glyph_scenario_draws_nothing :
    ex_glyph_A2.I = 0x050 ∧ ex_glyph_A2.PC = 0x200 ∧ (0xF0 >>> (7 - 0)) &&& 1 = 1 ∧
      ∃ t, cpu_steps (fun _ => env_idle) 0 2 ex_glyph_A2 = .ok t ∧ t.I = 0x250 ∧
        t.framebuffer 0 0 = 0 :=
  ⟨by decide, by decide, by decide, _, rfl, by decide, by decide⟩

/-- C12, amended: from the initialised machine with `PC = 0x200` and the image
`[0xA0, 0x50, 0xD0, 0x05]` (the word 0xA050 loads `I = 0x050`), two engine steps
complete and every cell in rows 0..4, columns 0..7 of the framebuffer equals the
bit of the glyph rows 0xF0, 0x90, 0x90, 0x90, 0xF0 with the most significant bit
in column 0.  With the image `[0xA2, 0x50, 0xD0, 0x05]` the steps complete with
`I = 0x250`, where the five sprite bytes are zero, and that region stays off. -/
theorem glyph_scenario_with_font_address :
    (∃ t, cpu_steps (fun _ => env_idle) 0 2 ex_glyph_A0 = .ok t ∧ t.I = 0x050 ∧
      ∀ r, r < 5 → ∀ c, c < 8 →
        t.framebuffer r c
          = ([0xF0, 0x90, 0x90, 0x90, 0xF0].getD r 0 >>> (7 - c)) &&& 1) ∧
    (∃ t, cpu_steps (fun _ => env_idle) 0 2 ex_glyph_A2 = .ok t ∧ t.I = 0x250 ∧
      (∀ r, r < 5 → t.RAM (t.I + r) = 0) ∧
      ∀ r, r < 5 → ∀ c, c < 8 → t.framebuffer r c = 0) :=
  ⟨⟨_, rfl, by decide, by decide⟩, ⟨_, rfl, by decide, by decide, by decide⟩⟩

/-- C13: dispatch on unknown codes.  For an instruction word whose top nibble is
the category (`op / 4096`, which makes it a 16-bit word): in category 8 a low
nibble other than 0..7 and 0xE, in category E a low byte other than 0x9E and
0xA1, and in category F a low byte other than 0x07, 0x0A, 0x15, 0x18, 0x1E,
0x29, 0x33, 0x55, 0x65 reach the `assert(false)` of the default arm, with no
handler applied to the machine; in category 0 every word other than 0x00E0 and
0x00EE completes and returns the machine unchanged. -/
theorem unknown_codes_dispatch (env : Env) (fuel : Nat) (s : Machine) (op : Nat) :
    (op / 4096 = 0x8 → ¬ (op % 16 ≤ 0x7 ∨ op % 16 = 0xE) →
      handle_opcode env fuel s op = .error .assert_failed) ∧
    (op / 4096 = 0xE → op % 256 ≠ 0x9E → op % 256 ≠ 0xA1 →
      handle_opcode env fuel s op = .error .assert_failed) ∧
    (op / 4096 = 0xF →
      ¬ (op % 256 = 0x07 ∨ op % 256 = 0x0A ∨ op % 256 = 0x15 ∨ op % 256 = 0x18 ∨
        op % 256 = 0x1E ∨ op % 256 = 0x29 ∨ op % 256 = 0x33 ∨ op % 256 = 0x55 ∨
        op % 256 = 0x65) →
      handle_opcode env fuel s op = .error .assert_failed) ∧
    (op / 4096 = 0x0 → op ≠ 0x00E0 → op ≠ 0x00EE →
      handle_opcode env fuel s op = .ok s) := by
  refine ⟨fun hc hn => ?_, fun hc h1 h2 => ?_, fun hc hn => ?_, fun hc h1 h2 => ?_⟩
  · rw [handle_8xxx _ _ _ _ (by omega)]
    unfold op_8xxx_handler
    simp only [and_0F]
    repeat rw [if_neg (by omega)]
  · rw [handle_Exxx _ _ _ _ (by omega)]
    unfold op_Exxx_handler
    simp only [and_FF]
    rw [if_neg h1, if_neg h2]
  · rw [handle_Fxxx _ _ _ _ (by omega)]
    unfold op_Fxxx_handler
    simp only [and_FF]
    repeat rw [if_neg (by omega)]
  · rw [handle_0xxx _ _ _ _ (by omega)]
    unfold op_0xxx_handler
    rw [if_neg h1, if_neg h2]
    rfl

/-- C13 on the word 0x8008: the dispatch ends in the assertion failure. -/
theorem unknown_codes_dispatch_witness :
    (0x8008 / 4096 = 0x8 ∧ ¬ (0x8008 % 16 ≤ 0x7 ∨ 0x8008 % 16 = 0xE)) ∧
      handle_opcode env_idle 0 Machine.init 0x8008 = .error .assert_failed :=
  ⟨by decide, (unknown_codes_dispatch env_idle 0 Machine.init 0x8008).1
    (by decide) (by decide)⟩

/-- C14: the fetch bounds check is `PC + 1 >= 0xFFF`.  With `PC = 0xFFE` the two
bytes of the instruction lie at 0xFFE and 0xFFF, inside the program region
(`PC + 1 ≤ 0xFFF`) and inside RAM, and hold the word 0x6005; the engine step
nevertheless ends in the assertion failure, as does every step started with
`PC + 1 ≥ 0xFFF`, and the word is neither decoded nor executed. -/
theorem step_faults_on_last_word :
    ex_last_word.PC = 0xFFE ∧ ex_last_word.PC + 1 ≤ PROGRAM_REGION_END ∧
      ex_last_word.PC + 1 < RAM_SIZE ∧ fetch ex_last_word = 0x6005 ∧
      cpu_step env_idle 0 ex_last_word = .error .assert_failed ∧
      (∀ (env : Env) (fuel : Nat) (s : Machine), PROGRAM_REGION_END ≤ s.PC + 1 →
        cpu_step env fuel s = .error .assert_failed) ∧
      (∀ (env : Env) (fuel : Nat) (s : Machine), s.PC + 1 < PROGRAM_REGION_END →
        cpu_step env fuel s
          = handle_opcode env fuel { s with PC := s.PC + 2 } (fetch s)) := by
  refine ⟨rfl, by decide, by decide, by decide, rfl, fun env fuel s h => ?_,
    fun env fuel s h => cpu_step_eq env fuel s h⟩
  unfold cpu_step
  rw [if_pos h]

/-- C16: `op_cls` assigns no global.  The word 0x00E0 is dispatched to `op_cls`
and returns every machine unchanged; on a machine whose framebuffer cell at row
30, column 62 is on, that cell is still on afterwards. -/
theorem cls_leaves_framebuffer :
    ex_overlap.framebuffer 30 62 = 1 ∧
      (∃ t, handle_opcode env_idle 0 ex_overlap 0x00E0 = .ok t ∧ t.framebuffer 30 62 = 1) ∧
      (∀ (env : Env) (fuel : Nat) (s : Machine),
        handle_opcode env fuel s 0x00E0 = .ok (op_cls s 0x00E0) ∧ op_cls s 0x00E0 = s) := by
  have h : ∀ (env : Env) (fuel : Nat) (s : Machine),
      handle_opcode env fuel s 0x00E0 = .ok (op_cls s 0x00E0) := by
    intro env fuel s
    rw [handle_0xxx _ _ _ _ (by decide)]
    unfold op_0xxx_handler
    rw [if_pos rfl]
  exact ⟨by decide, ⟨_, h env_idle 0 ex_overlap, by decide⟩, fun env fuel s => ⟨h env fuel s, rfl⟩⟩

/-- C17: glyph lookup (Fx29).  In a state whose cells 0x050..0x09F hold the font
table, for a register `x` holding a digit `d` in 0..15, the instruction
completes, sets `I = 0x050 + 5 * d` and changes nothing else, and the bytes
`RAM[I] .. RAM[I + 4]` are the entries `5d .. 5d + 4` of `font_sprites`. -/
theorem glyph_lookup (env : Env) (fuel : Nat) (s : Machine) (x : Nat)
    (hx : x < 16) (hd : s.V x < 16)
    (hfont : ∀ i, i < FONT_BYTES → s.RAM (FONT_BASE_ADDR + i) = font_sprites.getD i 0) :
    ∃ t, handle_opcode env fuel s (0xF029 + 256 * x) = .ok t ∧
      t.I = 0x050 + 5 * s.V x ∧
      (∀ j, j < 5 → t.RAM (t.I + j) = font_sprites.getD (5 * s.V x + j) 0) ∧
      t = { s with I := 0x050 + 5 * s.V x } := by
  have hX : X (0xF029 + 256 * x) = x := by rw [X_eq]; omega
  have hI : (FONT_BASE_ADDR + s.V x * 5) % 65536 = 0x050 + 5 * s.V x := by
    simp only [FONT_BASE_ADDR]; omega
  have ht : handle_opcode env fuel s (0xF029 + 256 * x)
      = .ok { s with I := 0x050 + 5 * s.V x } := by
    rw [handle_Fxxx _ _ _ _ (by omega), op_Fxxx_handler_29 _ _ _ _ (by omega)]
    unfold op_ld_f_vx
    rw [hX, hI]
  refine ⟨_, ht, rfl, fun j hj => ?_, rfl⟩
  show s.RAM (0x050 + 5 * s.V x + j) = _
  have := hfont (5 * s.V x + j) (by simp only [FONT_BYTES]; omega)
  simp only [FONT_BASE_ADDR] at this
  rw [← this]
  congr 1
  omega

/-- C17 on the initial machine with `V2 = 0xA`: `I` becomes 0x082 and `RAM[I]`
is the first row 0xF0 of the glyph of digit A. -/
theorem glyph_lookup_witness :
    (2 < 16 ∧ ex_digit.V 2 < 16 ∧
        ∀ i, i < FONT_BYTES → ex_digit.RAM (FONT_BASE_ADDR + i) = font_sprites.getD i 0) ∧
      ∃ t, handle_opcode env_idle 0 ex_digit (0xF029 + 256 * 2) = .ok t ∧ t.I = 0x082 ∧
        t.RAM t.I = 0xF0 := by
  have hf : ∀ i, i < FONT_BYTES →
      ex_digit.RAM (FONT_BASE_ADDR + i) = font_sprites.getD i 0 := by decide
  refine ⟨⟨by decide, by decide, hf⟩, ?_⟩
  obtain ⟨t, ht, hI, hrows, _⟩ := glyph_lookup env_idle 0 ex_digit 2 (by decide) (by decide) hf
  exact ⟨t, ht, hI, (hrows 0 (by decide)).trans (by decide)⟩

/-- C20: the five flag-writing operations with destination `VF` (x = 15).  Each
handler assigns `VF` first and `V[x]` last, so with x = 15 the value left in `VF`
is the one stored last.  With `VF = 200`, `V0 = 100`: add 0x8F04 leaves 44 (the
carry is 1), subtract 0x8F05 leaves 157 (no-borrow is 1), subtract-reverse 0x8F07
leaves 100 (no-borrow is 0), shift-left 0x8F0E leaves 2 (the top bit is 1); with
`VF = 201`, shift-right 0x8F06 leaves 0 (the bottom bit is 1). -/
theorem flag_destination_keeps_result :
    ex_flag_dest.V 0xF = 200 ∧ ex_flag_dest.V 0 = 100 ∧ ex_flag_odd.V 0xF = 201 ∧
      (∃ t, handle_opcode env_idle 0 ex_flag_dest 0x8F04 = .ok t ∧ t.V 0xF = 44) ∧
      (∃ t, handle_opcode env_idle 0 ex_flag_dest 0x8F05 = .ok t ∧ t.V 0xF = 157) ∧
      (∃ t, handle_opcode env_idle 0 ex_flag_odd 0x8F06 = .ok t ∧ t.V 0xF = 0) ∧
      (∃ t, handle_opcode env_idle 0 ex_flag_dest 0x8F07 = .ok t ∧ t.V 0xF = 100) ∧
      (∃ t, handle_opcode env_idle 0 ex_flag_dest 0x8F0E = .ok t ∧ t.V 0xF = 2) :=
  ⟨by decide, by decide, by decide, ⟨_, rfl, by decide⟩, ⟨_, rfl, by decide⟩,
    ⟨_, rfl, by decide⟩, ⟨_, rfl, by decide⟩, ⟨_, rfl, by decide⟩⟩

theorem writeRAM_RAM (s t : Machine) (a v : Nat) (h : s.writeRAM a v = .ok t) :
    t.RAM = upd s.RAM a v ∧ t.I = s.I ∧ t.V = s.V := by
  unfold Machine.writeRAM at h
  split at h
  · rw [← Except.ok.inj h]; exact ⟨rfl, rfl, rfl⟩
  · cases h

theorem op_drw_RAM (s t : Machine) (op : Nat) (h : op_drw s op = .ok t) :
    t.RAM = s.RAM := by
  unfold op_drw at h
  simp only [] at h
  cases hf : List.foldlM (drw_step ((s.setV 0xF 0).V (X op)) ((s.setV 0xF 0).V (Y op)))
      (s.setV 0xF 0) (List.range (N op)) with
  | error e => rw [hf] at h; cases h
  | ok s1 =>
    rw [hf] at h
    have ht : t = { s1 with screen_needs_update := true } := (Except.ok.inj h).symm
    have key := foldlM_keeps (drw_step ((s.setV 0xF 0).V (X op)) ((s.setV 0xF 0).V (Y op)))
      Machine.RAM (fun a i b hab => by
        unfold drw_step at hab
        cases hr : a.readRAM (a.I + i) with
        | error e => rw [hr] at hab; cases hab
        | ok byte =>
          rw [hr] at hab
          have hb : b = drw_row byte _ _ i a := (Except.ok.inj hab).symm
          obtain ⟨⟨_, _, _, _, _, _, c7, _⟩, _⟩ := drw_cols_spec byte
            ((s.setV 0xF 0).V (X op)) ((s.setV 0xF 0).V (Y op)) i a 8 (by omega)
          rw [hb]
          exact c7) _ _ _ hf
    rw [ht]
    exact key

theorem op_ld_vx_i_RAM (s t : Machine) (op : Nat) (h : op_ld_vx_i s op = .ok t) :
    t.RAM = s.RAM := by
  unfold op_ld_vx_i at h
  exact foldlM_keeps ld_vx_i_step Machine.RAM (fun a i b hab => by
    unfold ld_vx_i_step at hab
    cases hr : a.readRAM (a.I + i) with
    | error e => rw [hr] at hab; cases hab
    | ok byte =>
      rw [hr] at hab
      rw [← Except.ok.inj hab]
      rfl) _ _ _ h

/-- The three stores of `op_ld_b_vx` change no cell outside `I .. I + 2`. -/
theorem op_ld_b_vx_RAM (s t : Machine) (op : Nat) (h : op_ld_b_vx s op = .ok t) :
    ∀ a, (a < s.I ∨ s.I + 2 < a) → t.RAM a = s.RAM a := by
  unfold op_ld_b_vx at h
  simp only [] at h
  cases h1 : s.writeRAM s.I (s.V (X op) / 100) with
  | error e => rw [h1] at h; cases h
  | ok s1 =>
    rw [h1] at h
    simp only [] at h
    cases h2 : s1.writeRAM (s1.I + 1) (s1.V (X op) / 10 % 10) with
    | error e => rw [h2] at h; cases h
    | ok s2 =>
      rw [h2] at h
      simp only [] at h
      obtain ⟨r1, i1, _⟩ := writeRAM_RAM _ _ _ _ h1
      obtain ⟨r2, i2, _⟩ := writeRAM_RAM _ _ _ _ h2
      obtain ⟨r3, _, _⟩ := writeRAM_RAM _ _ _ _ h
      intro a ha
      rw [r3, r2, r1, i2, i1, upd_other _ _ _ _ (by omega), upd_other _ _ _ _ (by omega),
        upd_other _ _ _ _ (by omega)]

/-- The block copy of `op_ld_i_vx` changes no cell outside `I .. I + x`. -/
theorem op_ld_i_vx_RAM (s t : Machine) (op : Nat) (h : op_ld_i_vx s op = .ok t) :
    ∀ a, (a < s.I ∨ s.I + X op < a) → t.RAM a = s.RAM a := by
  unfold op_ld_i_vx at h
  simp only [] at h
  split at h
  · rw [← Except.ok.inj h]
    intro a ha
    show (if s.I ≤ a ∧ a ≤ s.I + X op then s.V (a - s.I) else s.RAM a) = s.RAM a
    rw [if_neg (by omega)]
  · cases h

theorem op_8xxx_handler_RAM (s t : Machine) (op : Nat)
    (h : op_8xxx_handler s op = .ok t) : t.RAM = s.RAM := by
  unfold op_8xxx_handler at h
  simp only [] at h
  split_ifs at h <;> (rw [← Except.ok.inj h]; rfl)

theorem op_Exxx_handler_RAM (env : Env) (s t : Machine) (op : Nat)
    (h : op_Exxx_handler env s op = .ok t) : t.RAM = s.RAM := by
  unfold op_Exxx_handler at h
  simp only [] at h
  split_ifs at h
  · unfold op_skp at h
    simp only [] at h
    split at h
    · rw [← Except.ok.inj h]; split <;> rfl
    · cases h
  · unfold op_sknp at h
    simp only [] at h
    split at h
    · rw [← Except.ok.inj h]; split <;> rfl
    · cases h

theorem op_Fxxx_handler_RAM (env : Env) (fuel : Nat) (s t : Machine) (op : Nat)
    (h : op_Fxxx_handler env fuel s op = .ok t) :
    (op % 256 ≠ 0x33 → op % 256 ≠ 0x55 → t.RAM = s.RAM) ∧
    (op % 256 = 0x33 → ∀ a, (a < s.I ∨ s.I + 2 < a) → t.RAM a = s.RAM a) ∧
    (op % 256 = 0x55 → ∀ a, (a < s.I ∨ s.I + X op < a) → t.RAM a = s.RAM a) := by
  unfold op_Fxxx_handler at h
  simp only [and_FF] at h
  have same : ∀ {u : Machine}, u.RAM = s.RAM →
      (op % 256 ≠ 0x33 → op % 256 ≠ 0x55 → u.RAM = s.RAM) ∧
      (op % 256 = 0x33 → ∀ a, (a < s.I ∨ s.I + 2 < a) → u.RAM a = s.RAM a) ∧
      (op % 256 = 0x55 → ∀ a, (a < s.I ∨ s.I + X op < a) → u.RAM a = s.RAM a) := by
    intro u hu
    exact ⟨fun _ _ => hu, fun _ a _ => by rw [hu], fun _ a _ => by rw [hu]⟩
  split_ifs at h with h1 h2 h3 h4 h5 h6 h7 h8 h9
  · rw [← Except.ok.inj h]; exact same rfl
  · unfold op_ld_vx_k at h
    simp only [] at h
    split at h
    · rw [← Except.ok.inj h]; exact same rfl
    · cases h
  · rw [← Except.ok.inj h]; exact same rfl
  · rw [← Except.ok.inj h]; exact same rfl
  · rw [← Except.ok.inj h]; exact same rfl
  · rw [← Except.ok.inj h]; exact same rfl
  · exact ⟨fun hne _ => absurd h7 hne, fun _ => op_ld_b_vx_RAM _ _ _ h,
      fun h55 => by omega⟩
  · exact ⟨fun _ hne => absurd h8 hne, fun h33 => by omega,
      fun _ => op_ld_i_vx_RAM _ _ _ h⟩
  · exact same (op_ld_vx_i_RAM _ _ _ h)

/-- What an instruction that completes does to memory: nothing, unless it is
Fx33, which changes no cell outside `I .. I + 2`, or Fx55, which changes no cell
outside `I .. I + x`. -/
theorem handle_opcode_RAM (env : Env) (fuel : Nat) (s t : Machine) (op : Nat)
    (h : handle_opcode env fuel s op = .ok t) :
    (¬ (op / 4096 % 16 = 15 ∧ (op % 256 = 0x33 ∨ op % 256 = 0x55)) → t.RAM = s.RAM) ∧
    (op / 4096 % 16 = 15 → op % 256 = 0x33 →
      ∀ a, (a < s.I ∨ s.I + 2 < a) → t.RAM a = s.RAM a) ∧
    (op / 4096 % 16 = 15 → op % 256 = 0x55 →
      ∀ a, (a < s.I ∨ s.I + X op < a) → t.RAM a = s.RAM a) := by
  have same : ∀ {c : Nat}, op / 4096 % 16 = c → c ≠ 15 → t.RAM = s.RAM →
      (¬ (op / 4096 % 16 = 15 ∧ (op % 256 = 0x33 ∨ op % 256 = 0x55)) → t.RAM = s.RAM) ∧
      (op / 4096 % 16 = 15 → op % 256 = 0x33 →
        ∀ a, (a < s.I ∨ s.I + 2 < a) → t.RAM a = s.RAM a) ∧
      (op / 4096 % 16 = 15 → op % 256 = 0x55 →
        ∀ a, (a < s.I ∨ s.I + X op < a) → t.RAM a = s.RAM a) := by
    intro c hc hne hu
    exact ⟨fun _ => hu, fun h15 => absurd (hc.symm.trans h15) hne,
      fun h15 => absurd (hc.symm.trans h15) hne⟩
  have hcases : op / 4096 % 16 = 0 ∨ op / 4096 % 16 = 1 ∨ op / 4096 % 16 = 2 ∨
      op / 4096 % 16 = 3 ∨ op / 4096 % 16 = 4 ∨ op / 4096 % 16 = 5 ∨
      op / 4096 % 16 = 6 ∨ op / 4096 % 16 = 7 ∨ op / 4096 % 16 = 8 ∨
      op / 4096 % 16 = 9 ∨ op / 4096 % 16 = 10 ∨ op / 4096 % 16 = 11 ∨
      op / 4096 % 16 = 12 ∨ op / 4096 % 16 = 13 ∨ op / 4096 % 16 = 14 ∨
      op / 4096 % 16 = 15 := by omega
  rcases hcases with c | c | c | c | c | c | c | c | c | c | c | c | c | c | c | c
  · rw [handle_0xxx _ _ _ _ c] at h
    refine same c (by decide) ?_
    unfold op_0xxx_handler at h
    split_ifs at h
    · rw [← Except.ok.inj h]; rfl
    · unfold op_ret at h
      split at h
      · rw [← Except.ok.inj h]
      · cases h
    · rw [← Except.ok.inj h]; rfl
  · rw [handle_1xxx _ _ _ _ c] at h
    exact same c (by decide) (by rw [← Except.ok.inj h]; rfl)
  · rw [handle_2xxx _ _ _ _ c] at h
    refine same c (by decide) ?_
    unfold op_call at h
    simp only [] at h
    split at h
    · rw [← Except.ok.inj h]
    · cases h
  · rw [handle_3xxx _ _ _ _ c] at h
    refine same c (by decide) ?_
    rw [← Except.ok.inj h]; unfold op_se_vx_byte
    simp only []
    split <;> rfl
  · rw [handle_4xxx _ _ _ _ c] at h
    refine same c (by decide) ?_
    rw [← Except.ok.inj h]; unfold op_sne_vx_byte
    simp only []
    split <;> rfl
  · rw [handle_5xxx _ _ _ _ c] at h
    refine same c (by decide) ?_
    rw [← Except.ok.inj h]; unfold op_se_vx_vy
    simp only []
    split <;> rfl
  · rw [handle_6xxx _ _ _ _ c] at h
    exact same c (by decide) (by rw [← Except.ok.inj h]; rfl)
  · rw [handle_7xxx _ _ _ _ c] at h
    exact same c (by decide) (by rw [← Except.ok.inj h]; rfl)
  · rw [handle_8xxx _ _ _ _ c] at h
    exact same c (by decide) (op_8xxx_handler_RAM _ _ _ h)
  · rw [handle_9xxx _ _ _ _ c] at h
    refine same c (by decide) ?_
    rw [← Except.ok.inj h]; unfold op_sne_vx_vy
    simp only []
    split <;> rfl
  · rw [handle_Axxx _ _ _ _ c] at h
    exact same c (by decide) (by rw [← Except.ok.inj h]; rfl)
  · rw [handle_Bxxx _ _ _ _ c] at h
    exact same c (by decide) (by rw [← Except.ok.inj h]; rfl)
  · rw [handle_Cxxx _ _ _ _ c] at h
    exact same c (by decide) (by rw [← Except.ok.inj h]; rfl)
  · rw [handle_Dxxx _ _ _ _ c] at h
    exact same c (by decide) (op_drw_RAM _ _ _ h)
  · rw [handle_Exxx _ _ _ _ c] at h
    exact same c (by decide) (op_Exxx_handler_RAM _ _ _ _ h)
  · rw [handle_Fxxx _ _ _ _ c] at h
    obtain ⟨a, b, d⟩ := op_Fxxx_handler_RAM _ _ _ _ _ h
    exact ⟨fun hn => a (fun h33 => hn ⟨c, Or.inl h33⟩) (fun h55 => hn ⟨c, Or.inr h55⟩),
      fun _ => b, fun _ => d⟩

/-- C18, as the claim states it, fails: on a machine whose cells 0x050..0x09F
hold the font table, with `I = 0x050` and `V0 = 62`, the instruction 0xF033
completes and leaves `RAM[0x051] = 6` where the table has 0x90. -/
theorem glyph_region_overwritten :
    (∀ i, i < FONT_BYTES → ex_draw.RAM (FONT_BASE_ADDR + i) = font_sprites.getD i 0) ∧
      ex_draw.I = 0x050 ∧ ex_draw.V 0 = 62 ∧ font_sprites.getD 1 0 = 0x90 ∧
      ∃ t, handle_opcode env_idle 0 ex_draw 0xF033 = .ok t ∧ t.RAM 0x051 = 6 :=
  ⟨by decide, by decide, by decide, by decide, _, rfl, by decide⟩

/-- C18, amended: on a machine whose cells 0x050..0x09F hold the font table, an
instruction that completes leaves those 80 cells equal to the table, provided
that, when it is Fx33, the cells `I .. I + 2` it stores to lie outside the
region and, when it is Fx55, the cells `I .. I + x` it stores to lie outside the
region.  No other instruction writes memory. -/
theorem glyph_region_kept (env : Env) (fuel : Nat) (s t : Machine) (op : Nat)
    (hfont : ∀ i, i < FONT_BYTES → s.RAM (FONT_BASE_ADDR + i) = font_sprites.getD i 0)
    (h : handle_opcode env fuel s op = .ok t)
    (h33 : op / 4096 % 16 = 15 → op % 256 = 0x33 →
      s.I + 2 < FONT_BASE_ADDR ∨ FONT_BASE_ADDR + FONT_BYTES ≤ s.I)
    (h55 : op / 4096 % 16 = 15 → op % 256 = 0x55 →
      s.I + X op < FONT_BASE_ADDR ∨ FONT_BASE_ADDR + FONT_BYTES ≤ s.I) :
    ∀ i, i < FONT_BYTES → t.RAM (FONT_BASE_ADDR + i) = font_sprites.getD i 0 := by
  obtain ⟨r0, r33, r55⟩ := handle_opcode_RAM env fuel s t op h
  intro i hi
  rw [← hfont i hi]
  by_cases hF : op / 4096 % 16 = 15
  · by_cases hb : op % 256 = 0x33
    · have := h33 hF hb
      exact r33 hF hb _ (by simp only [FONT_BASE_ADDR, FONT_BYTES] at this hi ⊢; omega)
    · by_cases hc : op % 256 = 0x55
      · have := h55 hF hc
        exact r55 hF hc _ (by simp only [FONT_BASE_ADDR, FONT_BYTES] at this hi ⊢; omega)
      · rw [r0 (fun hn => hn.2.elim hb hc)]
  · rw [r0 (fun hn => hF hn.1)]

/-- C18 amended, on the initial machine (`I = 0`) and the instruction 0xF033. -/
theorem glyph_region_kept_witness :
    ((∀ i, i < FONT_BYTES → Machine.init.RAM (FONT_BASE_ADDR + i) = font_sprites.getD i 0) ∧
        (Machine.init.I + 2 < FONT_BASE_ADDR ∨ FONT_BASE_ADDR + FONT_BYTES ≤ Machine.init.I)) ∧
      ∃ t, handle_opcode env_idle 0 Machine.init 0xF033 = .ok t ∧
        ∀ i, i < FONT_BYTES → t.RAM (FONT_BASE_ADDR + i) = font_sprites.getD i 0 :=
  have hf : ∀ i, i < FONT_BYTES →
      Machine.init.RAM (FONT_BASE_ADDR + i) = font_sprites.getD i 0 := by decide
  ⟨⟨hf, by decide⟩, _, rfl,
    glyph_region_kept env_idle 0 Machine.init _ 0xF033 hf rfl (fun _ _ => by decide)
      (fun _ h => absurd h (by decide))⟩

/-- With no key down in any scan the key-wait loop uses up any fuel. -/
theorem wait_key_none (env : Env) (h : ∀ i, get_key_pressed (env.IsKeyDown i) = 0xFF) :
    ∀ fuel t0, wait_key env fuel t0 = none := by
  intro fuel
  induction fuel with
  | zero => intro t0; rfl
  | succ n ih =>
    intro t0
    unfold wait_key
    simp only [h t0, if_true]
    exact ih (t0 + 1)

/-- The key-wait loop returns the key of the first scan that finds one. -/
theorem wait_key_found (env : Env) (k : Nat) (hk : k ≠ 0xFF) :
    ∀ j fuel t0, (∀ i, i < j → get_key_pressed (env.IsKeyDown (t0 + i)) = 0xFF) →
      get_key_pressed (env.IsKeyDown (t0 + j)) = k → j < fuel →
      wait_key env fuel t0 = some k := by
  intro j
  induction j with
  | zero =>
    intro fuel t0 _ hj hf
    obtain ⟨n, rfl⟩ : ∃ n, fuel = n + 1 := ⟨fuel - 1, by omega⟩
    unfold wait_key
    simp only [Nat.add_zero] at hj
    simp only [hj, if_neg hk]
  | succ j ih =>
    intro fuel t0 hbefore hj hf
    obtain ⟨n, rfl⟩ : ∃ n, fuel = n + 1 := ⟨fuel - 1, by omega⟩
    unfold wait_key
    have h0 := hbefore 0 (by omega)
    simp only [Nat.add_zero] at h0
    simp only [h0, if_true]
    refine ih n (t0 + 1) (fun i hi => ?_) ?_ (by omega)
    · have := hbefore (i + 1) (by omega)
      rw [show t0 + 1 + i = t0 + (i + 1) by omega]
      exact this
    · rw [show t0 + 1 + j = t0 + (j + 1) by omega]
      exact hj

/-- The scan `get_key_pressed` returns a logical key 0..15 or the value 0xFF. -/
theorem get_key_pressed_range (down : Nat → Bool) :
    get_key_pressed down = 0xFF ∨ get_key_pressed down < 16 := by
  unfold get_key_pressed
  cases hf : valid_keys.find? (fun key => down key.qwerty_key) with
  | none => exact Or.inl rfl
  | some key =>
    have hm : key ∈ valid_keys := List.mem_of_find?_eq_some hf
    have hall : ∀ m ∈ valid_keys, m.chip8_key < 16 := by decide
    exact Or.inr (hall key hm)

/-- With none of the sixteen mapped keys down, the scan returns 0xFF. -/
theorem get_key_pressed_idle (down : Nat → Bool)
    (h : ∀ m ∈ valid_keys, down m.qwerty_key = false) : get_key_pressed down = 0xFF := by
  unfold get_key_pressed
  have : valid_keys.find? (fun key => down key.qwerty_key) = none := by
    rw [List.find?_eq_none]
    intro m hm
    simp [h m hm]
  rw [this]

/-- C19, as the claim states it, fails: in the input history in which no key is
ever down, the instruction 0xF00A does not return however many keyboard scans it
is given; the loop in `op_ld_vx_k` is still polling when any fuel runs out. -/
theorem key_wait_never_returns :
    (∀ i key, env_idle.IsKeyDown i key = false) ∧
      (∀ fuel, handle_opcode env_idle fuel Machine.init 0xF00A = .error .still_polling) ∧
      (∀ fuel t, handle_opcode env_idle fuel Machine.init 0xF00A ≠ .ok t) := by
  have hidle : ∀ i, get_key_pressed (env_idle.IsKeyDown i) = 0xFF :=
    fun i => get_key_pressed_idle _ (fun _ _ => rfl)
  have h : ∀ fuel, handle_opcode env_idle fuel Machine.init 0xF00A = .error .still_polling := by
    intro fuel
    rw [handle_Fxxx _ _ _ _ (by decide), op_Fxxx_handler_0A _ _ _ _ (by decide)]
    unfold op_ld_vx_k
    simp only [wait_key_none env_idle hidle fuel 0]
  refine ⟨fun _ _ => rfl, h, fun fuel t ht => ?_⟩
  rw [h fuel] at ht
  cases ht

/-- C19, amended: wait-for-key (Fx0A) blocks inside its handler.  If the first
keyboard scan that finds a mapped key down is scan `j` and reports key `k`, then
`k` is in 0..15 and, given more than `j` scans, the instruction completes with
`Vx = k` and nothing else changed, timers included; if no scan ever finds a key
down the handler never returns, whatever the number of scans.  A scan reports
the logical key of the one mapped key that is down, and 0xFF when none is. -/
theorem key_wait_blocks (env : Env) (fuel : Nat) (s : Machine) (x : Nat) (hx : x < 16) :
    (∀ j k, (∀ i, i < j → get_key_pressed (env.IsKeyDown i) = 0xFF) →
      get_key_pressed (env.IsKeyDown j) = k → k ≠ 0xFF → j < fuel →
      k < 16 ∧ handle_opcode env fuel s (0xF00A + 256 * x) = .ok (s.setV x k)) ∧
    ((∀ i, get_key_pressed (env.IsKeyDown i) = 0xFF) →
      ∀ fuel2, handle_opcode env fuel2 s (0xF00A + 256 * x) = .error .still_polling) ∧
    (∀ m ∈ valid_keys,
      get_key_pressed (fun key => decide (key = m.qwerty_key)) = m.chip8_key ∧
        m.chip8_key < 16) ∧
    (∀ down : Nat → Bool, (∀ m ∈ valid_keys, down m.qwerty_key = false) →
      get_key_pressed down = 0xFF) := by
  have hX : X (0xF00A + 256 * x) = x := by rw [X_eq]; omega
  have hd : ∀ fuel2, handle_opcode env fuel2 s (0xF00A + 256 * x)
      = op_ld_vx_k env fuel2 s (0xF00A + 256 * x) := by
    intro fuel2
    rw [handle_Fxxx _ _ _ _ (by omega), op_Fxxx_handler_0A _ _ _ _ (by omega)]
  refine ⟨fun j k hbefore hj hk hf => ⟨?_, ?_⟩, fun hnone fuel2 => ?_, by decide,
    get_key_pressed_idle⟩
  · rcases get_key_pressed_range (env.IsKeyDown j) with h | h
    · exact absurd (hj.symm.trans h) hk
    · rw [hj] at h; exact h
  · rw [hd]
    unfold op_ld_vx_k
    have := wait_key_found env k hk j fuel 0
      (fun i hi => by rw [Nat.zero_add]; exact hbefore i hi)
      (by rw [Nat.zero_add]; exact hj) hf
    simp only [this, hX]
  · rw [hd]
    unfold op_ld_vx_k
    simp only [wait_key_none env hnone fuel2 0]

/-- C19 amended, with the key Q (logical key 4) down from the third scan on and
five scans allowed: the instruction 0xF30A completes with `V3 = 4`. -/
theorem key_wait_blocks_witness :
    (3 < 16 ∧ (∀ i, i < 2 → get_key_pressed (env_press_q.IsKeyDown i) = 0xFF) ∧
        get_key_pressed (env_press_q.IsKeyDown 2) = 4 ∧ 4 ≠ 0xFF ∧ 2 < 5) ∧
      (4 < 16 ∧ handle_opcode env_press_q 5 Machine.init (0xF00A + 256 * 3)
        = .ok (Machine.init.setV 3 4)) :=
  ⟨by decide, (key_wait_blocks env_press_q 5 Machine.init 3 (by decide)).1 2 4 (by decide)
    (by decide) (by decide) (by decide)⟩

/-- The row loop of `op_drw` reads outside RAM as soon as a row address passes
the end of the block. -/
theorem drw_rows_out_of_bounds (vx vy : Nat) (s0 : Machine) (k : Nat) (hk : k ≤ 32)
    (hpos : 0 < k) (hI : RAM_SIZE < s0.I + k) :
    (List.range k).foldlM (drw_step vx vy) s0 = .error .out_of_bounds := by
  induction k with
  | zero => omega
  | succ k ih =>
    rw [foldlM_range_succ]
    by_cases hin : s0.I + k ≤ RAM_SIZE
    · obtain ⟨t, ht, hsame, _⟩ := drw_rows_spec vx vy s0 k (by omega) hin
      rw [ht]
      simp only []
      unfold drw_step Machine.readRAM
      rw [hsame.1, if_neg (by omega)]
    · rcases Nat.eq_zero_or_pos k with h | h
      · subst h
        show (match (Except.ok s0 : Except Trap Machine) with
          | .ok s1 => drw_step vx vy s1 0
          | .error e => .error e) = _
        simp only []
        unfold drw_step Machine.readRAM
        rw [if_neg (by omega)]
      · rw [ih (by omega) h (by omega)]

/-- The loop of `op_ld_vx_i` reads outside RAM as soon as an address passes the
end of the block. -/
theorem ld_vx_i_loop_out_of_bounds (s : Machine) (k : Nat) (hpos : 0 < k)
    (hI : RAM_SIZE < s.I + k) :
    (List.range k).foldlM ld_vx_i_step s = .error .out_of_bounds := by
  induction k with
  | zero => omega
  | succ k ih =>
    rw [foldlM_range_succ]
    by_cases hin : s.I + k ≤ RAM_SIZE
    · obtain ⟨t, ht, hIt⟩ := ld_vx_i_loop_ok s k hin
      rw [ht]
      simp only []
      unfold ld_vx_i_step Machine.readRAM
      rw [hIt, if_neg (by omega)]
    · rcases Nat.eq_zero_or_pos k with h | h
      · subst h
        show (match (Except.ok s : Except Trap Machine) with
          | .ok s1 => ld_vx_i_step s1 0
          | .error e => .error e) = _
        simp only []
        unfold ld_vx_i_step Machine.readRAM
        rw [if_neg (by omega)]
      · rw [ih h (by omega)]

/-- The stores of `op_ld_b_vx` leave RAM when `I + 2` passes the end of the block. -/
theorem op_ld_b_vx_out_of_bounds (s : Machine) (op : Nat) (h : RAM_SIZE ≤ s.I + 2) :
    op_ld_b_vx s op = .error .out_of_bounds := by
  unfold op_ld_b_vx Machine.writeRAM
  simp only []
  by_cases h0 : s.I < RAM_SIZE
  · rw [if_pos h0]
    simp only []
    by_cases h1 : s.I + 1 < RAM_SIZE
    · rw [if_pos h1]
      simp only []
      rw [if_neg (by omega)]
    · rw [if_neg h1]
  · rw [if_neg h0]

/-- C15, as the claim states it, fails: with `I = 0xFFE` the instruction 0xF033
stores to 0xFFE, 0xFFF and then to 0x1000, outside the 4096-byte block; the
handler has no check, and the outcome is the access outside RAM, not a fault. -/
theorem store_past_end_of_RAM :
    ex_high.I = 0xFFE ∧ RAM_SIZE ≤ ex_high.I + 2 ∧
      handle_opcode env_idle 0 ex_high 0xF033 = .error .out_of_bounds ∧
      handle_opcode env_idle 0 ex_high 0xF033 ≠ .error .assert_failed := by
  have h : handle_opcode env_idle 0 ex_high 0xF033 = .error .out_of_bounds := rfl
  refine ⟨rfl, by decide, h, fun h2 => ?_⟩
  rw [h] at h2
  cases h2

/-- C15, amended: the data accesses of Dxyn, Fx33, Fx55 and Fx65 are unchecked.
Each of the four completes when every address it accesses is below 4096
(`n = 0` or `I + n ≤ 4096` for Dxyn, `I + 2 < 4096` for Fx33, `I + x < 4096` for
Fx55 and Fx65); otherwise it performs an access outside the RAM block; and in no
case does it end in an assertion failure. -/
theorem data_access_unchecked (env : Env) (fuel : Nat) (s : Machine) (x y n : Nat)
    (hx : x < 16) (hy : y < 16) (hn : n < 16) :
    ((n = 0 ∨ s.I + n ≤ RAM_SIZE →
        ∃ t, handle_opcode env fuel s (0xD000 + 256 * x + 16 * y + n) = .ok t) ∧
      (0 < n → RAM_SIZE < s.I + n →
        handle_opcode env fuel s (0xD000 + 256 * x + 16 * y + n) = .error .out_of_bounds) ∧
      handle_opcode env fuel s (0xD000 + 256 * x + 16 * y + n) ≠ .error .assert_failed) ∧
    ((s.I + 2 < RAM_SIZE → ∃ t, handle_opcode env fuel s (0xF033 + 256 * x) = .ok t) ∧
      (RAM_SIZE ≤ s.I + 2 →
        handle_opcode env fuel s (0xF033 + 256 * x) = .error .out_of_bounds) ∧
      handle_opcode env fuel s (0xF033 + 256 * x) ≠ .error .assert_failed) ∧
    ((s.I + x < RAM_SIZE → ∃ t, handle_opcode env fuel s (0xF055 + 256 * x) = .ok t) ∧
      (RAM_SIZE ≤ s.I + x →
        handle_opcode env fuel s (0xF055 + 256 * x) = .error .out_of_bounds) ∧
      handle_opcode env fuel s (0xF055 + 256 * x) ≠ .error .assert_failed) ∧
    ((s.I + x < RAM_SIZE → ∃ t, handle_opcode env fuel s (0xF065 + 256 * x) = .ok t) ∧
      (RAM_SIZE ≤ s.I + x →
        handle_opcode env fuel s (0xF065 + 256 * x) = .error .out_of_bounds) ∧
      handle_opcode env fuel s (0xF065 + 256 * x) ≠ .error .assert_failed) := by
  have split3 : ∀ (r : Except Trap Machine) (p : Prop),
      (p → ∃ t, r = .ok t) → (¬ p → r = .error .out_of_bounds) →
      r ≠ .error .assert_failed := by
    intro r p h1 h2 hr
    by_cases hp : p
    · obtain ⟨t, ht⟩ := h1 hp
      rw [ht] at hr; cases hr
    · rw [h2 hp] at hr; cases hr
  have hN := drw_N_eq x y n hx hy hn
  have dD : handle_opcode env fuel s (0xD000 + 256 * x + 16 * y + n)
      = op_drw s (0xD000 + 256 * x + 16 * y + n) := handle_Dxxx _ _ _ _ (by omega)
  have d33 : handle_opcode env fuel s (0xF033 + 256 * x) = op_ld_b_vx s (0xF033 + 256 * x) := by
    rw [handle_Fxxx _ _ _ _ (by omega), op_Fxxx_handler_33 _ _ _ _ (by omega)]
  have d55 : handle_opcode env fuel s (0xF055 + 256 * x) = op_ld_i_vx s (0xF055 + 256 * x) := by
    rw [handle_Fxxx _ _ _ _ (by omega), op_Fxxx_handler_55 _ _ _ _ (by omega)]
  have d65 : handle_opcode env fuel s (0xF065 + 256 * x) = op_ld_vx_i s (0xF065 + 256 * x) := by
    rw [handle_Fxxx _ _ _ _ (by omega), op_Fxxx_handler_65 _ _ _ _ (by omega)]
  have hX55 : X (0xF055 + 256 * x) = x := by rw [X_eq]; omega
  have hX65 : X (0xF065 + 256 * x) = x := by rw [X_eq]; omega
  have aD : n = 0 ∨ s.I + n ≤ RAM_SIZE →
      ∃ t, handle_opcode env fuel s (0xD000 + 256 * x + 16 * y + n) = .ok t := by
    intro h
    rw [dD]
    rcases h with h | h
    · subst h
      unfold op_drw
      simp only [hN]
      exact ⟨_, rfl⟩
    · obtain ⟨t, ht, _⟩ := op_drw_spec s (0xD000 + 256 * x + 16 * y + n) (by rw [hN]; exact h)
      exact ⟨t, ht⟩
  have bD : 0 < n → RAM_SIZE < s.I + n →
      handle_opcode env fuel s (0xD000 + 256 * x + 16 * y + n) = .error .out_of_bounds := by
    intro hpos hI
    rw [dD]
    unfold op_drw
    simp only [hN]
    rw [drw_rows_out_of_bounds _ _ (s.setV 0xF 0) n (by omega) hpos hI]
  have a33 : s.I + 2 < RAM_SIZE → ∃ t, handle_opcode env fuel s (0xF033 + 256 * x) = .ok t :=
    fun h => by rw [d33]; exact op_ld_b_vx_ok s _ h
  have b33 : RAM_SIZE ≤ s.I + 2 →
      handle_opcode env fuel s (0xF033 + 256 * x) = .error .out_of_bounds :=
    fun h => by rw [d33]; exact op_ld_b_vx_out_of_bounds s _ h
  have a55 : s.I + x < RAM_SIZE → ∃ t, handle_opcode env fuel s (0xF055 + 256 * x) = .ok t := by
    intro h
    rw [d55]
    unfold op_ld_i_vx
    simp only [hX55]
    rw [if_pos h]
    exact ⟨_, rfl⟩
  have b55 : RAM_SIZE ≤ s.I + x →
      handle_opcode env fuel s (0xF055 + 256 * x) = .error .out_of_bounds := by
    intro h
    rw [d55]
    unfold op_ld_i_vx
    simp only [hX55]
    rw [if_neg (by omega)]
  have a65 : s.I + x < RAM_SIZE → ∃ t, handle_opcode env fuel s (0xF065 + 256 * x) = .ok t := by
    intro h
    rw [d65]
    unfold op_ld_vx_i
    simp only [hX65]
    obtain ⟨t, ht, _⟩ := ld_vx_i_loop_ok s (x + 1) (by omega)
    exact ⟨t, ht⟩
  have b65 : RAM_SIZE ≤ s.I + x →
      handle_opcode env fuel s (0xF065 + 256 * x) = .error .out_of_bounds := by
    intro h
    rw [d65]
    unfold op_ld_vx_i
    simp only [hX65]
    exact ld_vx_i_loop_out_of_bounds s (x + 1) (by omega) (by omega)
  refine ⟨⟨aD, bD, ?_⟩, ⟨a33, b33, ?_⟩, ⟨a55, b55, ?_⟩, ⟨a65, b65, ?_⟩⟩
  · exact split3 _ (n = 0 ∨ s.I + n ≤ RAM_SIZE) aD (fun h => bD (by omega) (by omega))
  · exact split3 _ (s.I + 2 < RAM_SIZE) a33 (fun h => b33 (by omega))
  · exact split3 _ (s.I + x < RAM_SIZE) a55 (fun h => b55 (by omega))
  · exact split3 _ (s.I + x < RAM_SIZE) a65 (fun h => b65 (by omega))

/-- C15 amended, with `I = 0xFFE`: the load 0xF165 reads 0xFFE and 0xFFF and
completes, while the draw 0xD003 reads on to 0x1000, outside the block. -/
theorem data_access_unchecked_witness :
    (1 < 16 ∧ 0 < 16 ∧ 3 < 16 ∧ ex_high.I + 1 < RAM_SIZE ∧ 0 < 3 ∧
        RAM_SIZE < ex_high.I + 3) ∧
      (∃ t, handle_opcode env_idle 0 ex_high (0xF065 + 256 * 1) = .ok t) ∧
      handle_opcode env_idle 0 ex_high (0xD000 + 256 * 1 + 16 * 0 + 3)
        = .error .out_of_bounds :=
  have h := data_access_unchecked env_idle 0 ex_high 1 0 3 (by decide) (by decide) (by decide)
  ⟨by decide, h.2.2.2.1 (by decide), h.1.2.1 (by decide) (by decide)⟩

/-- C21: draw (Dxyn) with the flag register as a coordinate.  `op_drw` assigns
`VF = 0` before it reads `vx` and `vy`, so a coordinate taken from register 15
is 0 whatever `VF` held.  With `VF = 5`, `V0 = 0` and the sprite row 0xF0 at
`I`: the word 0xDF01 lights columns 0 and 3 of row 0 and leaves columns 5 and 8
off, where a corner at column `5 mod 64` would light columns 5..8; the word
0xD0F1 lights row 0, column 0 and leaves row 5, column 0 off. -/
theorem drw_flag_coordinate_reads_zero :
    ex_flag_coord.V 0xF = 5 ∧ ex_flag_coord.V 0 = 0 ∧
      ex_flag_coord.RAM ex_flag_coord.I = 0xF0 ∧
      (∃ t, handle_opcode env_idle 0 ex_flag_coord 0xDF01 = .ok t ∧
        t.framebuffer 0 0 = 1 ∧ t.framebuffer 0 3 = 1 ∧
        t.framebuffer 0 5 = 0 ∧ t.framebuffer 0 8 = 0) ∧
      (∃ t, handle_opcode env_idle 0 ex_flag_coord 0xD0F1 = .ok t ∧
        t.framebuffer 0 0 = 1 ∧ t.framebuffer 5 0 = 0) ∧
      (∀ (s : Machine) (op : Nat), X op = 0xF → drw_vx s op = 0) ∧
      (∀ (s : Machine) (op : Nat), Y op = 0xF → drw_vy s op = 0) := by
  refine ⟨by decide, by decide, by decide,
    ⟨_, rfl, by decide, by decide, by decide, by decide⟩,
    ⟨_, rfl, by decide, by decide⟩, fun s op h => ?_, fun s op h => ?_⟩
  · unfold drw_vx
    rw [h]
    exact upd_same s.V 0xF 0
  · unfold drw_vy
    rw [h]
    exact upd_same s.V 0xF 0

/-- C22: binary-coded decimal store (Fx33).  For every register `x`, every byte
`v = Vx` and every `I` with `I + 2 < 4096` the instruction completes; `RAM[I]`,
`RAM[I + 1]`, `RAM[I + 2]` are then the hundreds, tens and ones digits of `v`
(at most 2, 9 and 9, with `100 * RAM[I] + 10 * RAM[I + 1] + RAM[I + 2] = v`);
every other memory cell, all registers, the index register and the rest of the
machine are unchanged. -/
theorem bcd_store (env : Env) (fuel : Nat) (s : Machine) (x : Nat)
    (hx : x < 16) (hv : s.V x < 256) (hI : s.I + 2 < RAM_SIZE) :
    ∃ t, handle_opcode env fuel s (0xF033 + 256 * x) = .ok t ∧
      t.RAM s.I = s.V x / 100 ∧ t.RAM (s.I + 1) = s.V x / 10 % 10 ∧
      t.RAM (s.I + 2) = s.V x % 10 ∧
      t.RAM s.I ≤ 2 ∧ t.RAM (s.I + 1) ≤ 9 ∧ t.RAM (s.I + 2) ≤ 9 ∧
      100 * t.RAM s.I + 10 * t.RAM (s.I + 1) + t.RAM (s.I + 2) = s.V x ∧
      (∀ a, a ≠ s.I → a ≠ s.I + 1 → a ≠ s.I + 2 → t.RAM a = s.RAM a) ∧
      t.V = s.V ∧ t.I = s.I ∧ t.DT = s.DT ∧ t.ST = s.ST ∧ t.stack = s.stack ∧
      t.stack_ptr = s.stack_ptr ∧ t.PC = s.PC ∧ t.framebuffer = s.framebuffer := by
  have hX : X (0xF033 + 256 * x) = x := by rw [X_eq]; omega
  have ht : handle_opcode env fuel s (0xF033 + 256 * x)
      = .ok { s with RAM := upd (upd (upd s.RAM s.I (s.V x / 100)) (s.I + 1)
          (s.V x / 10 % 10)) (s.I + 2) (s.V x % 10) } := by
    rw [handle_Fxxx _ _ _ _ (by omega), op_Fxxx_handler_33 _ _ _ _ (by omega)]
    unfold op_ld_b_vx Machine.writeRAM
    simp only [hX]
    rw [if_pos (by omega)]
    simp only []
    rw [if_pos (by omega)]
    simp only []
    rw [if_pos (by omega)]
  have r0 : upd (upd (upd s.RAM s.I (s.V x / 100)) (s.I + 1) (s.V x / 10 % 10)) (s.I + 2)
      (s.V x % 10) s.I = s.V x / 100 := by
    rw [upd_other _ _ _ _ (by omega), upd_other _ _ _ _ (by omega), upd_same]
  have r1 : upd (upd (upd s.RAM s.I (s.V x / 100)) (s.I + 1) (s.V x / 10 % 10)) (s.I + 2)
      (s.V x % 10) (s.I + 1) = s.V x / 10 % 10 := by
    rw [upd_other _ _ _ _ (by omega), upd_same]
  have r2 : upd (upd (upd s.RAM s.I (s.V x / 100)) (s.I + 1) (s.V x / 10 % 10)) (s.I + 2)
      (s.V x % 10) (s.I + 2) = s.V x % 10 := upd_same _ _ _
  refine ⟨_, ht, r0, r1, r2, ?_, ?_, ?_, ?_, fun a h0 h1 h2 => ?_,
    rfl, rfl, rfl, rfl, rfl, rfl, rfl, rfl⟩
  · show upd _ _ _ s.I ≤ 2
    rw [r0]; omega
  · show upd _ _ _ (s.I + 1) ≤ 9
    rw [r1]; omega
  · show upd _ _ _ (s.I + 2) ≤ 9
    rw [r2]; omega
  · show 100 * upd _ _ _ s.I + 10 * upd _ _ _ (s.I + 1) + upd _ _ _ (s.I + 2) = s.V x
    rw [r0, r1, r2]; omega
  · show upd _ _ _ a = s.RAM a
    rw [upd_other _ _ _ _ h2, upd_other _ _ _ _ h1, upd_other _ _ _ _ h0]

/-- C22 with `V3 = 254` and `I = 0x300`: the bytes stored are 2, 5, 4. -/
theorem bcd_store_witness :
    (3 < 16 ∧ ex_bcd.V 3 < 256 ∧ ex_bcd.I + 2 < RAM_SIZE) ∧
      ∃ t, handle_opcode env_idle 0 ex_bcd (0xF033 + 256 * 3) = .ok t ∧
        t.RAM 0x300 = 2 ∧ t.RAM 0x301 = 5 ∧ t.RAM 0x302 = 4 := by
  refine ⟨by decide, ?_⟩
  obtain ⟨t, ht, h0, h1, h2, _⟩ :=
    bcd_store env_idle 0 ex_bcd 3 (by decide) (by decide) (by decide)
  exact ⟨t, ht, h0, h1, h2⟩

end Chip8
